import Mathlib

/-!
Verification of the matching / pricing engine of the Ecommerce-Companion
repository, as a shallow embedding in Lean 4.

Conventions of the embedding:
* Python floats are modelled by exact rationals (`ℚ`).  Python's builtin
  `round(x, 2)` is modelled by `round2` (round half to even at two decimal
  places, on the exact rational value).
* Python's float power operator `**` has no exact rational counterpart; every
  definition that uses it is parametrised by an oracle `fpow : ℚ → ℚ → ℚ`
  standing for `**`.  Theorems quantify over the oracle (adding only the
  hypotheses they need about it), and concrete instantiations used in
  counterexamples are chosen at points where the float computation is exact
  and the exactness is recorded in the statement.
* In-place mutation of records becomes explicit state passing: a function
  that mutates `item` returns the updated `item`.
* A Python statement that raises (`ZeroDivisionError`, `IndexError`, a call
  to a method that does not exist, ...) is modelled by an `Option`/`Except`
  result whose failure constructor marks the raise.
-/

/-- Round a rational to the nearest integer, half to even (Python's `round`). -/
def roundHalfEven (x : ℚ) : ℤ :=
  let f : ℤ := ⌊x⌋
  let r : ℚ := x - f
  if r < 1/2 then f
  else if 1/2 < r then f + 1
  else if Even f then f else f + 1

/-- Python's `round(x, 2)` on the exact rational value. -/
def round2 (x : ℚ) : ℚ := (roundHalfEven (100 * x) : ℚ) / 100

theorem roundHalfEven_intCast (n : ℤ) : roundHalfEven (n : ℚ) = n := by
  simp [roundHalfEven]

theorem roundHalfEven_nonneg {x : ℚ} (hx : 0 ≤ x) : 0 ≤ roundHalfEven x := by
  have hf : (0 : ℤ) ≤ ⌊x⌋ := Int.floor_nonneg.mpr hx
  unfold roundHalfEven
  dsimp only
  split
  · exact hf
  · split
    · omega
    · split
      · exact hf
      · omega

theorem round2_nonneg {x : ℚ} (hx : 0 ≤ x) : 0 ≤ round2 x := by
  have h : 0 ≤ roundHalfEven (100 * x) := roundHalfEven_nonneg (by positivity)
  unfold round2
  positivity

namespace UnitConvertor

/-- The unit → multiplier table of `UnitConvertor.get_units` (multipliers to
the per-category base unit), in the source's insertion order. -/
def get_units : List (String × ℚ) :=
  [ ("kg", 1000), ("g", 1), ("lb", 453592/1000), ("fl oz", 295735/10000),
    ("oz", 283495/10000), ("l", 1000), ("ml", 1), ("m", 1000), ("cm", 10),
    ("mm", 1), ("b", 1), ("kb", 1024), ("gb", 1024^2), ("tb", 1024^3) ]

/-- Dictionary lookup `units[u]` (`none` models a missing key / `u not in units`). -/
def lookupUnit (u : String) : Option ℚ :=
  (get_units.find? (fun p => p.1 = u)).map (fun p => p.2)

/-- The unit symbols, i.e. the keys of the table (used for `in units` tests). -/
def unitKeys : List String := get_units.map (fun p => p.1)

/-- `UnitConvertor.convert`: standardize to the category base then scale to the
target unit; raising `ValueError` for an unsupported unit is modelled by
`Except.error`. -/
def convert (value : ℚ) (from_unit to_unit : String) : Except String ℚ :=
  match lookupUnit from_unit, lookupUnit to_unit with
  | some multiplier, some target =>
      let standardized_value := multiplier * value
      .ok (standardized_value / target)
  | _, _ => .error "unsupported unit"

end UnitConvertor

namespace ItemCalculator

/-- The fields of `Item` read or written by the pricing heuristics of
`ItemCalculator`.  `measurements` is the list of `[value, unit]` pairs. -/
structure Item where
  sell_price : ℚ := 0
  accuracy_score : ℚ := 0
  postage_price : ℚ := 0
  buyer_protection_fee : ℚ := 0
  num_products : ℕ := 0
  total_price : ℚ := 0
  name_certainty : ℚ := 1
  price_quality : ℚ := 0
  measurements : List (ℚ × String) := []
  deriving Repr, DecidableEq

/-- The fields of `Product` used by the aggregation heuristics. -/
structure Product where
  accuracy_score : ℚ := 100
  total_price : ℚ := 0
  postage_price : ℚ := 0
  buy_price : ℚ := 0
  deriving Repr, DecidableEq

instance : Inhabited Product := ⟨{}⟩

/-- `ItemCalculator.calculate_buyer_protection_fee`: tiered fee stored in
`buyer_protection_fee`, then netted out of `sell_price`. -/
def calculate_buyer_protection_fee (item : Item) : Item :=
  let flat_fee : ℚ := 1/10
  let fee : ℚ :=
    if item.sell_price ≤ 20 then round2 (flat_fee + 7/100 * item.sell_price)
    else if item.sell_price ≤ 300 then round2 (3/2 + 4/100 * (item.sell_price - 20))
    else if item.sell_price ≤ 4000 then round2 (127/10 + 2/100 * (item.sell_price - 300))
    else 867/10
  { item with
    buyer_protection_fee := fee
    sell_price := round2 (item.sell_price - fee) }

/-- `ItemCalculator.calculate_postage_price`: fallback postage estimate from
the first measurement when `postage_price` is not positive. -/
def calculate_postage_price (item : Item) : Item :=
  if 0 < item.postage_price then item
  else
    match item.measurements with
    | [] => { item with postage_price := 17/10 }
    | (v, u) :: _ =>
      if u = "ml" then
        { item with postage_price := if v ≤ 50 then 31/20 else 27/10 }
      else if u = "l" then
        { item with postage_price := if v ≤ 1/20 then 31/20 else 27/10 }
      else if u = "g" then
        { item with postage_price :=
            if v ≤ 100 then 31/20 else if v ≤ 200 then 27/10 else 329/100 }
      else if u = "kg" then
        { item with postage_price :=
            if v ≤ 1/10 then 31/20 else if v ≤ 2/10 then 27/10 else 329/100 }
      else
        { item with postage_price := 31/20 }

end ItemCalculator

/-- C3: the buyer-protection fee follows the tiered schedule and is netted out
of the sell price; in particular a sell price of 250 yields fee 10.70 and net
sell price 239.30. -/
theorem buyer_protection_fee_schedule (item : ItemCalculator.Item) :
    (item.sell_price ≤ 20 →
      (ItemCalculator.calculate_buyer_protection_fee item).buyer_protection_fee
        = round2 (1/10 + 7/100 * item.sell_price)) ∧
    (20 < item.sell_price → item.sell_price ≤ 300 →
      (ItemCalculator.calculate_buyer_protection_fee item).buyer_protection_fee
        = round2 (3/2 + 4/100 * (item.sell_price - 20))) ∧
    (300 < item.sell_price → item.sell_price ≤ 4000 →
      (ItemCalculator.calculate_buyer_protection_fee item).buyer_protection_fee
        = round2 (127/10 + 2/100 * (item.sell_price - 300))) ∧
    (4000 < item.sell_price →
      (ItemCalculator.calculate_buyer_protection_fee item).buyer_protection_fee
        = 867/10) ∧
    (ItemCalculator.calculate_buyer_protection_fee item).sell_price
      = round2 (item.sell_price -
          (ItemCalculator.calculate_buyer_protection_fee item).buyer_protection_fee) := by
  unfold ItemCalculator.calculate_buyer_protection_fee
  dsimp only
  refine ⟨?_, ?_, ?_, ?_, ?_⟩
  · intro h; simp [h]
  · intro h1 h2; rw [if_neg (by linarith), if_pos h2]
  · intro h1 h2; rw [if_neg (by linarith), if_neg (by linarith), if_pos h2]
  · intro h; rw [if_neg (by linarith), if_neg (by linarith), if_neg (by linarith)]
  · rfl

/-- C3 witness: sell price 250 gives fee 10.70 and net sell price 239.30. -/
theorem buyer_protection_fee_schedule_witness :
    ((ItemCalculator.calculate_buyer_protection_fee { sell_price := 250 }).buyer_protection_fee
        = 107/10) ∧
    ((ItemCalculator.calculate_buyer_protection_fee { sell_price := 250 }).sell_price
        = 2393/10) := by
  have h := buyer_protection_fee_schedule { sell_price := 250 }
  refine ⟨h.2.1 (by norm_num) (by norm_num) |>.trans (by norm_num [round2, roundHalfEven]), ?_⟩
  rw [h.2.2.2.2, h.2.1 (by norm_num) (by norm_num)]
  norm_num [round2, roundHalfEven]

/-- C8: `convert` returns `value * mult[from] / mult[to]` when both symbols are
in the table, and fails exactly when at least one symbol is absent. -/
theorem convert_ok_iff_supported (value : ℚ) (from_unit to_unit : String) :
    (∀ m₁ m₂, UnitConvertor.lookupUnit from_unit = some m₁ →
        UnitConvertor.lookupUnit to_unit = some m₂ →
        UnitConvertor.convert value from_unit to_unit = .ok (value * m₁ / m₂)) ∧
    ((∃ e, UnitConvertor.convert value from_unit to_unit = .error e) ↔
        (UnitConvertor.lookupUnit from_unit = none ∨
         UnitConvertor.lookupUnit to_unit = none)) := by
  constructor
  · intro m₁ m₂ h₁ h₂
    unfold UnitConvertor.convert
    rw [h₁, h₂]
    dsimp only
    rw [mul_comm]
  · unfold UnitConvertor.convert
    rcases h₁ : UnitConvertor.lookupUnit from_unit with _ | m₁ <;>
      rcases h₂ : UnitConvertor.lookupUnit to_unit with _ | m₂ <;>
      simp

/-- C8 witness: 1 kg converts to 1000 g, and an unknown symbol fails. -/
theorem convert_ok_iff_supported_witness :
    UnitConvertor.convert 1 "kg" "g" = .ok 1000 ∧
    (∃ e, UnitConvertor.convert 1 "xx" "g" = .error e) := by
  constructor
  · have h := (convert_ok_iff_supported 1 "kg" "g").1 1000 1 (by decide) (by decide)
    rw [h]; norm_num
  · exact (convert_ok_iff_supported 1 "xx" "g").2.mpr (by decide)

/-- C10: `calculate_postage_price` leaves the item unchanged when postage is
already positive; otherwise it only sets `postage_price`, to a positive tier
constant driven by the first measurement (1.7 for no measurements, 1.55 for a
unit outside ml/l/g/kg), so postage is positive on exit in every case. -/
theorem calculate_postage_price_spec (item : ItemCalculator.Item) :
    (0 < item.postage_price → ItemCalculator.calculate_postage_price item = item) ∧
    (0 < (ItemCalculator.calculate_postage_price item).postage_price) ∧
    (ItemCalculator.calculate_postage_price item
      = { item with
          postage_price := (ItemCalculator.calculate_postage_price item).postage_price }) ∧
    (item.postage_price ≤ 0 → item.measurements = [] →
      (ItemCalculator.calculate_postage_price item).postage_price = 17/10) ∧
    (∀ v u rest, item.postage_price ≤ 0 → item.measurements = (v, u) :: rest →
      u ∉ (["ml", "l", "g", "kg"] : List String) →
      (ItemCalculator.calculate_postage_price item).postage_price = 31/20) := by
  unfold ItemCalculator.calculate_postage_price
  by_cases hp : 0 < item.postage_price
  · refine ⟨fun _ => by rw [if_pos hp], ?_, ?_, ?_, ?_⟩
    · rw [if_pos hp]; exact hp
    · rw [if_pos hp]
    · intro h; linarith
    · intro v u rest h; linarith
  · rw [if_neg hp]
    refine ⟨fun h => absurd h hp, ?_, ?_, ?_, ?_⟩
    · rcases hm : item.measurements with _ | ⟨⟨v, u⟩, rest⟩
      · norm_num
      · dsimp only
        split <;> [skip; split] <;> [skip; skip; split] <;> [skip; skip; skip; split]
          <;> dsimp only <;> first
          | (split_ifs <;> norm_num)
          | norm_num
    · rcases hm : item.measurements with _ | ⟨⟨v, u⟩, rest⟩
      · rfl
      · dsimp only
        split <;> [skip; split] <;> [skip; skip; split] <;> [skip; skip; skip; split]
          <;> dsimp only <;> first
          | (split_ifs <;> rfl)
          | rfl
    · intro _ hm; rw [hm]
    · intro v u rest _ hm hu
      rw [hm]
      dsimp only
      rw [if_neg (by simp at hu; tauto), if_neg (by simp at hu; tauto),
        if_neg (by simp at hu; tauto), if_neg (by simp at hu; tauto)]

/-- C10 witness: an item with zero postage and a first measurement in an
unknown unit gets postage 1.55; a positive-postage item is untouched. -/
theorem calculate_postage_price_spec_witness :
    (ItemCalculator.calculate_postage_price
        { postage_price := 0, measurements := [(3, "oz")] }).postage_price = 31/20 ∧
    0 < (ItemCalculator.calculate_postage_price
        { postage_price := 0, measurements := [(3, "oz")] }).postage_price ∧
    ItemCalculator.calculate_postage_price { postage_price := 5 }
      = { postage_price := 5 } := by
  refine ⟨?_, ?_, ?_⟩
  · exact (calculate_postage_price_spec _).2.2.2.2 3 "oz" [] (by norm_num) rfl (by decide)
  · exact (calculate_postage_price_spec _).2.1
  · exact (calculate_postage_price_spec _).1 (by norm_num)

namespace LotProcessor

/-- The fields of an item consumed by the lot-level rollup (each item has
already been processed by the per-item pipeline, an external collaborator from
the point of view of these lines). -/
structure LItem where
  quantity : ℕ := 1
  sell_price : ℚ := 0
  postage_price : ℚ := 0
  buyer_protection_fee : ℚ := 0
  price_quality : ℚ := 0
  accuracy_score : ℚ := 0
  deriving Repr, DecidableEq

/-- The lot record: declared purchase price plus the derived fields written by
`LotProcessor.process`. -/
structure JobLot where
  items : List LItem := []
  buy_listing_price : Option ℚ := none
  sell_price : ℚ := 0
  postage_price : ℚ := 0
  listing_price : ℚ := 0
  profit : ℚ := 0
  accuracy_score : ℚ := 0
  rating : ℚ := 0
  deriving Repr, DecidableEq

def total_sell_price (items : List LItem) : ℚ :=
  (items.map (fun it => it.sell_price * (it.quantity : ℚ))).sum

def total_postage_price (items : List LItem) : ℚ :=
  (items.map (fun it => it.postage_price * (it.quantity : ℚ))).sum

def total_other_fees (items : List LItem) : ℚ :=
  (items.map (fun it => it.buyer_protection_fee * (it.quantity : ℚ))).sum

def total_accuracy_score (items : List LItem) : ℚ :=
  (items.map (fun it => it.accuracy_score * (it.quantity : ℚ))).sum

def raw_total_score (items : List LItem) : ℚ :=
  (items.map (fun it => it.price_quality * (it.quantity : ℚ))).sum

def num_items (items : List LItem) : ℕ :=
  (items.map (fun it => it.quantity)).sum

/-- `total_score` after the `num_items ** 0.1` normalization step. -/
def scaled_total_score (fpow : ℚ → ℚ → ℚ) (items : List LItem) : ℚ :=
  if 0 < num_items items then
    raw_total_score items * fpow (num_items items) (1/10)
  else raw_total_score items

/-- The lot-level aggregation tail of `LotProcessor.process` (the per-item
`item_processor.process` calls are the upstream, out-of-scope collaborator:
items enter here with their fields already computed). -/
def process (fpow : ℚ → ℚ → ℚ) (jobLot : JobLot) : JobLot :=
  let items := jobLot.items.mergeSort (fun a b => b.price_quality ≤ a.price_quality)
  let ts := total_sell_price items
  let tp := total_postage_price items
  let tf := total_other_fees items
  let ta := total_accuracy_score items
  let score := scaled_total_score fpow items
  let n_items := num_items items
  let profit := round2 (match jobLot.buy_listing_price with
    | some b => ts - b
    | none => 0)
  let n : ℚ := if profit ≤ 0 then -1 else 1
  let rating := if profit ≠ 0 then round2 (n * (score * fpow (n * profit) (6/5))) else 0
  { jobLot with
    items := items
    sell_price := round2 ts
    postage_price := round2 tp
    listing_price := round2 (ts + tp + tf)
    profit := profit
    rating := rating
    accuracy_score := if n_items ≠ 0 then round2 (ta / (n_items : ℚ)) else 0 }

theorem sorted_total_sell (items : List LItem) :
    total_sell_price (items.mergeSort (fun a b => b.price_quality ≤ a.price_quality))
      = total_sell_price items := by
  unfold total_sell_price
  exact List.Perm.sum_eq ((List.mergeSort_perm items _).map _)

theorem sorted_raw_total_score (items : List LItem) :
    raw_total_score (items.mergeSort (fun a b => b.price_quality ≤ a.price_quality))
      = raw_total_score items := by
  unfold raw_total_score
  exact List.Perm.sum_eq ((List.mergeSort_perm items _).map _)

theorem sorted_num_items (items : List LItem) :
    num_items (items.mergeSort (fun a b => b.price_quality ≤ a.price_quality))
      = num_items items := by
  unfold num_items
  exact List.Perm.sum_eq ((List.mergeSort_perm items _).map _)

theorem sorted_scaled_total_score (fpow : ℚ → ℚ → ℚ) (items : List LItem) :
    scaled_total_score fpow (items.mergeSort (fun a b => b.price_quality ≤ a.price_quality))
      = scaled_total_score fpow items := by
  unfold scaled_total_score
  rw [sorted_raw_total_score, sorted_num_items]

end LotProcessor

/-- C5: for a lot with a declared cost, profit is the (rounded) total sell
price minus that cost, the rating is `sign(profit) × total_quality_score ×
|profit| ** 1.2` (rounded), the rating is 0 when profit is 0, and the base of
the fractional power is positive whenever it is evaluated (so the computation
never raises), where the total quality score is the quantity-weighted sum of
per-item `price_quality` scaled by `num_items ** 0.1`. -/
theorem lot_rating_spec (fpow : ℚ → ℚ → ℚ) (jobLot : LotProcessor.JobLot) (b : ℚ)
    (hb : jobLot.buy_listing_price = some b) :
    (LotProcessor.process fpow jobLot).profit
        = round2 (LotProcessor.total_sell_price jobLot.items - b) ∧
    ((LotProcessor.process fpow jobLot).profit = 0 →
        (LotProcessor.process fpow jobLot).rating = 0) ∧
    ((LotProcessor.process fpow jobLot).profit ≠ 0 →
        (0 < (if (LotProcessor.process fpow jobLot).profit ≤ 0 then (-1 : ℚ) else 1) *
            (LotProcessor.process fpow jobLot).profit) ∧
        (LotProcessor.process fpow jobLot).rating
          = round2 ((if 0 < (LotProcessor.process fpow jobLot).profit then (1 : ℚ) else -1) *
              (LotProcessor.scaled_total_score fpow jobLot.items *
                fpow |(LotProcessor.process fpow jobLot).profit| (6/5)))) := by
  have hprofit : (LotProcessor.process fpow jobLot).profit
      = round2 (LotProcessor.total_sell_price jobLot.items - b) := by
    unfold LotProcessor.process
    dsimp only
    rw [hb, LotProcessor.sorted_total_sell]
  refine ⟨hprofit, ?_, ?_⟩
  · intro h0
    unfold LotProcessor.process at h0 ⊢
    dsimp only at h0 ⊢
    rw [if_neg (by simpa using h0)]
  · intro hne
    have hrating : (LotProcessor.process fpow jobLot).rating
        = round2 ((if (LotProcessor.process fpow jobLot).profit ≤ 0 then (-1:ℚ) else 1) *
            (LotProcessor.scaled_total_score fpow jobLot.items *
              fpow ((if (LotProcessor.process fpow jobLot).profit ≤ 0 then (-1:ℚ) else 1) *
                (LotProcessor.process fpow jobLot).profit) (6/5))) := by
      unfold LotProcessor.process at hne ⊢
      dsimp only at hne ⊢
      rw [if_pos (by simpa using hne), LotProcessor.sorted_scaled_total_score]
    rcases lt_or_gt_of_ne hne with hlt | hgt
    · have hsgn : (if (LotProcessor.process fpow jobLot).profit ≤ 0 then (-1:ℚ) else 1) = -1 :=
        if_pos (le_of_lt hlt)
      refine ⟨by rw [hsgn]; nlinarith, ?_⟩
      rw [hrating, hsgn, if_neg (by linarith), abs_of_neg hlt]
      ring_nf
    · have hsgn : (if (LotProcessor.process fpow jobLot).profit ≤ 0 then (-1:ℚ) else 1) = 1 :=
        if_neg (by linarith)
      refine ⟨by rw [hsgn]; linarith, ?_⟩
      rw [hrating, hsgn, if_pos hgt, abs_of_pos hgt]
      ring_nf

/-- C5 witness: one item with sell price 10 and quality 2, lot cost 15, and the
constant-1 power oracle: profit is −5 and the rating is round2(−(2·(5^1.2
oracle value 1))) = −2 (negative, no raise); with lot cost 10 the profit is 0
and the rating is 0. -/
theorem lot_rating_spec_witness :
    (LotProcessor.process (fun _ _ => 1)
        { items := [{ quantity := 1, sell_price := 10, price_quality := 2 }],
          buy_listing_price := some 15 }).profit = -5 ∧
    (LotProcessor.process (fun _ _ => 1)
        { items := [{ quantity := 1, sell_price := 10, price_quality := 2 }],
          buy_listing_price := some 15 }).rating = -2 ∧
    (LotProcessor.process (fun _ _ => 1)
        { items := [{ quantity := 1, sell_price := 10, price_quality := 2 }],
          buy_listing_price := some 10 }).rating = 0 := by
  have h1 := lot_rating_spec (fun _ _ => 1)
    { items := [{ quantity := 1, sell_price := 10, price_quality := 2 }],
      buy_listing_price := some 15 } 15 rfl
  have h2 := lot_rating_spec (fun _ _ => 1)
    { items := [{ quantity := 1, sell_price := 10, price_quality := 2 }],
      buy_listing_price := some 10 } 10 rfl
  have hp1 : (LotProcessor.process (fun _ _ => 1)
      { items := [{ quantity := 1, sell_price := 10, price_quality := 2 }],
        buy_listing_price := some 15 }).profit = -5 := by
    rw [h1.1]
    norm_num [LotProcessor.total_sell_price, round2, roundHalfEven]
  have hp2 : (LotProcessor.process (fun _ _ => 1)
      { items := [{ quantity := 1, sell_price := 10, price_quality := 2 }],
        buy_listing_price := some 10 }).profit = 0 := by
    rw [h2.1]
    norm_num [LotProcessor.total_sell_price, round2, roundHalfEven]
  refine ⟨hp1, ?_, h2.2.1 hp2⟩
  have hr := (h1.2.2 (by rw [hp1]; norm_num)).2
  rw [hr, hp1]
  norm_num [LotProcessor.scaled_total_score, LotProcessor.raw_total_score,
    LotProcessor.num_items, round2, roundHalfEven]

namespace ItemProcessor

/-- A raw found product together with the penalty hints attached at the moment
its batch is created (`acc_penalty` / `price_penalty` dictionary keys; absent
keys read back as 0 in `create_product`). -/
structure Tagged (α : Type) where
  payload : α
  acc_penalty : ℚ := 0
  price_penalty : ℚ := 0
  deriving Repr, DecidableEq

/-- The condition flip performed when relaxing the condition filter. -/
def flip_condition (cond : String) : String :=
  if cond = "NEW" then "USED" else if cond = "USED" then "NEW" else cond

/-- The penalty attached to a condition-flipped batch: 0.1 for New→Used and
0.6 for Used→New (0 when the original condition is neither). -/
def flip_penalty (cond : String) : ℚ :=
  if cond = "NEW" then 1/10 else if cond = "USED" then 6/10 else 0

/-- Batch fetched under the strict filters (no penalty keys). -/
def batch1 (fetch : Bool → String → List α) (cond : String) : List (Tagged α) :=
  (fetch true cond).map (fun a => { payload := a })

/-- Batch fetched with country filters dropped; tagged `acc_penalty = 0.1` at
creation (no `price_penalty` key is written). -/
def batch2 (fetch : Bool → String → List α) (cond : String) : List (Tagged α) :=
  (fetch false cond).map (fun a => { payload := a, acc_penalty := 1/10 })

/-- Batch fetched with country filters restored and the condition flipped;
tagged with the flip penalty on both accuracy and price at creation. -/
def batch3 (fetch : Bool → String → List α) (cond : String) : List (Tagged α) :=
  (fetch true (flip_condition cond)).map
    (fun a => { payload := a, acc_penalty := flip_penalty cond,
                price_penalty := flip_penalty cond })

/-- Batch fetched with both relaxations; accuracy penalty is the flip penalty
plus 0.1. -/
def batch4 (fetch : Bool → String → List α) (cond : String) : List (Tagged α) :=
  (fetch false (flip_condition cond)).map
    (fun a => { payload := a, acc_penalty := flip_penalty cond + 1/10,
                price_penalty := flip_penalty cond })

/-- The search-widening ladder of `ItemProcessor.process` (lines 74–116):
`fetch country_filtered condition` stands for the eBay query with the same
`q`/limit under the given filters; everything else about the request handler
is outside the embedding. -/
def widen_search (fetch : Bool → String → List α) (cond : String) : List (Tagged α) :=
  let found_products := batch1 fetch cond
  if found_products.length < 3 then
    let pool2 := found_products ++ batch2 fetch cond
    if pool2.length < 3 then
      let pool3 := pool2 ++ batch3 fetch cond
      if pool3.length < 3 then
        pool3 ++ batch4 fetch cond
      else pool3
    else pool2
  else found_products

end ItemProcessor

/-- C6: each relaxation step fires only when the current pool has fewer than 3
results; every previously fetched batch is kept as a prefix of the final pool
and later batches are appended, tagged at creation: flat 0.1 confidence
penalty for the relaxed-country batch, and for the condition flip 0.1 when
flipping New→Used, 0.6 when flipping Used→New (on both confidence and price). -/
theorem search_widening_spec {α : Type} (fetch : Bool → String → List α) (cond : String) :
    (3 ≤ (ItemProcessor.batch1 fetch cond).length →
      ItemProcessor.widen_search fetch cond = ItemProcessor.batch1 fetch cond) ∧
    ((ItemProcessor.batch1 fetch cond).length < 3 →
      3 ≤ (ItemProcessor.batch1 fetch cond ++ ItemProcessor.batch2 fetch cond).length →
      ItemProcessor.widen_search fetch cond
        = ItemProcessor.batch1 fetch cond ++ ItemProcessor.batch2 fetch cond) ∧
    ((ItemProcessor.batch1 fetch cond ++ ItemProcessor.batch2 fetch cond).length < 3 →
      3 ≤ (ItemProcessor.batch1 fetch cond ++ ItemProcessor.batch2 fetch cond
            ++ ItemProcessor.batch3 fetch cond).length →
      ItemProcessor.widen_search fetch cond
        = ItemProcessor.batch1 fetch cond ++ ItemProcessor.batch2 fetch cond
            ++ ItemProcessor.batch3 fetch cond) ∧
    ((ItemProcessor.batch1 fetch cond ++ ItemProcessor.batch2 fetch cond
        ++ ItemProcessor.batch3 fetch cond).length < 3 →
      ItemProcessor.widen_search fetch cond
        = ItemProcessor.batch1 fetch cond ++ ItemProcessor.batch2 fetch cond
            ++ ItemProcessor.batch3 fetch cond ++ ItemProcessor.batch4 fetch cond) ∧
    (∀ t ∈ ItemProcessor.batch2 fetch cond,
      t.acc_penalty = 1/10 ∧ t.price_penalty = 0) ∧
    (cond = "NEW" → ∀ t ∈ ItemProcessor.batch3 fetch cond,
      t.acc_penalty = 1/10 ∧ t.price_penalty = 1/10) ∧
    (cond = "USED" → ∀ t ∈ ItemProcessor.batch3 fetch cond,
      t.acc_penalty = 6/10 ∧ t.price_penalty = 6/10) := by
  unfold ItemProcessor.widen_search
  refine ⟨?_, ?_, ?_, ?_, ?_, ?_, ?_⟩
  · intro h
    rw [if_neg (by omega)]
  · intro h1 h2
    rw [if_pos h1, if_neg (by omega)]
  · intro h1 h2
    rw [if_pos (by simp at h1 ⊢; omega), if_pos (by omega), if_neg (by omega)]
  · intro h1
    rw [if_pos (by simp at h1 ⊢; omega), if_pos (by simp at h1 ⊢; omega),
      if_pos (by simpa using h1)]
  · intro t ht
    unfold ItemProcessor.batch2 at ht
    rcases List.mem_map.mp ht with ⟨a, _, rfl⟩
    exact ⟨rfl, rfl⟩
  · intro hc t ht
    unfold ItemProcessor.batch3 at ht
    rcases List.mem_map.mp ht with ⟨a, _, rfl⟩
    subst hc
    exact ⟨rfl, rfl⟩
  · intro hc t ht
    unfold ItemProcessor.batch3 at ht
    rcases List.mem_map.mp ht with ⟨a, _, rfl⟩
    subst hc
    refine ⟨?_, ?_⟩ <;> simp [ItemProcessor.flip_penalty]

/-- A concrete fetch oracle for the C6 witness: 2 strict results, none under
relaxed country, 1 after the condition flip. -/
def witnessFetch : Bool → String → List ℕ := fun country cond =>
  if country then (if cond = "NEW" then [1, 2] else [5]) else []

/-- C6 witness: with 2 strict candidates the controller walks through
relax-country then relax-condition; the relaxed-country batch is empty, the
flipped batch carries penalty 0.1 for New→Used, and all prior candidates are
kept in order. -/
theorem search_widening_spec_witness :
    ItemProcessor.widen_search witnessFetch "NEW"
      = ItemProcessor.batch1 witnessFetch "NEW" ++ ItemProcessor.batch2 witnessFetch "NEW"
          ++ ItemProcessor.batch3 witnessFetch "NEW" ∧
    (∀ t ∈ ItemProcessor.batch3 witnessFetch "NEW",
      t.acc_penalty = 1/10 ∧ t.price_penalty = 1/10) := by
  have h := search_widening_spec witnessFetch "NEW"
  exact ⟨h.2.2.1 (by decide) (by decide), h.2.2.2.2.2.1 rfl⟩

namespace ProductCalculator

/-- `ProductCalculator.adjust_accuracy_for_end`, applied to the normalized
token lists of the item's and the product's original variant names and to the
product's current accuracy score.

When the last tokens are equal the score is multiplied by 0.99.  Otherwise the
source calls `word_filterer.get_tag(...)` and then
`word_filterer.is_key_word(token, [filter])` — but the `WordFilterer` class
defines neither a `get_tag` method nor a two-argument `is_key_word`
(`WordFilterer.is_key_word(self, word)` is unary), so the branch raises
`AttributeError` before any multiplication; this raise is the `.error`
result.  `[-1]` indexing of an empty token list (`IndexError`) is the other
`.error` case. -/
def adjust_accuracy_for_end (item_tokens product_tokens : List String)
    (accuracy_score : ℚ) : Except String ℚ :=
  match product_tokens.getLast?, item_tokens.getLast? with
  | some product_last, some item_last =>
    if product_last = item_last then .ok (accuracy_score * (99/100))
    else .error "AttributeError: WordFilterer object has no attribute get_tag"
  | _, _ => .error "IndexError: list index out of range"

end ProductCalculator

/-- C7: the end-anchoring check multiplies by 0.99 when the last normalized
tokens agree, but on any pair whose last tokens differ it raises
(`WordFilterer.get_tag` does not exist), so the claimed 0.85–0.95 branch is
unreachable and the check does not always complete without error. -/
theorem end_anchoring_raises :
    (∃ e, ProductCalculator.adjust_accuracy_for_end ["primer"] ["serum"] 100 = .error e) ∧
    ProductCalculator.adjust_accuracy_for_end ["primer"] ["primer"] 100 = .ok 99 := by
  constructor
  · exact ⟨_, rfl⟩
  · show Except.ok (100 * (99/100) : ℚ) = Except.ok 99
    norm_num

/-- Lower bound: the half-even rounding never goes below the floor. -/
theorem roundHalfEven_ge_floor (x : ℚ) : ⌊x⌋ ≤ roundHalfEven x := by
  unfold roundHalfEven
  dsimp only
  split
  · exact le_refl _
  · split
    · omega
    · split
      · exact le_refl _
      · omega

theorem round2_ge_intDiv {n : ℤ} {x : ℚ} (h : (n : ℚ) / 100 ≤ x) :
    (n : ℚ) / 100 ≤ round2 x := by
  have h1 : (n : ℚ) ≤ 100 * x := by linarith
  have h2 : n ≤ ⌊(100 : ℚ) * x⌋ := Int.le_floor.mpr h1
  have h3 : (n : ℚ) ≤ (roundHalfEven (100 * x) : ℚ) := by
    exact_mod_cast le_trans h2 (roundHalfEven_ge_floor _)
  unfold round2
  exact (div_le_div_right (by norm_num)).mpr h3

namespace ItemCalculator

/-- Python's `max()` over a nonempty list (the `[]` case is unreachable:
callers guard with `if accuracy90 else ...`). -/
def listMax : List ℚ → ℚ
  | [] => 0
  | [a] => a
  | a :: b :: r => max a (listMax (b :: r))

/-- Python's `min()` over a nonempty list. -/
def listMin : List ℚ → ℚ
  | [] => 0
  | [a] => a
  | a :: b :: r => min a (listMin (b :: r))

theorem listMax_mem : ∀ {l : List ℚ}, l ≠ [] → listMax l ∈ l
  | [], h => absurd rfl h
  | [a], _ => by simp [listMax]
  | a :: b :: r, _ => by
    have ih := listMax_mem (l := b :: r) (by simp)
    rcases le_total a (listMax (b :: r)) with h | h
    · simp only [listMax, max_eq_right h]
      exact List.mem_cons_of_mem _ ih
    · simp only [listMax, max_eq_left h]
      exact List.mem_cons_self _ _

theorem le_listMax : ∀ {l : List ℚ} {x : ℚ}, x ∈ l → x ≤ listMax l
  | [], _, h => absurd h (by simp)
  | [a], x, h => by simp at h; simp [listMax, h]
  | a :: b :: r, x, h => by
    rcases List.mem_cons.mp h with rfl | h
    · exact le_max_left _ _
    · exact le_trans (le_listMax h) (le_max_right _ _)

theorem listMin_mem : ∀ {l : List ℚ}, l ≠ [] → listMin l ∈ l
  | [], h => absurd rfl h
  | [a], _ => by simp [listMin]
  | a :: b :: r, _ => by
    have ih := listMin_mem (l := b :: r) (by simp)
    rcases le_total a (listMin (b :: r)) with h | h
    · simp only [listMin, min_eq_left h]
      exact List.mem_cons_self _ _
    · simp only [listMin, min_eq_right h]
      exact List.mem_cons_of_mem _ ih

theorem listMin_le : ∀ {l : List ℚ} {x : ℚ}, x ∈ l → listMin l ≤ x
  | [], _, h => absurd h (by simp)
  | [a], x, h => by simp at h; simp [listMin, h]
  | a :: b :: r, x, h => by
    rcases List.mem_cons.mp h with rfl | h
    · exact min_le_left _ _
    · exact le_trans (min_le_right _ _) (listMin_le h)

theorem listMax_perm {l₁ l₂ : List ℚ} (h : l₁.Perm l₂) (hne : l₁ ≠ []) :
    listMax l₁ = listMax l₂ := by
  have hne₂ : l₂ ≠ [] := by
    intro hc; subst hc; exact hne h.eq_nil
  exact le_antisymm
    (le_listMax (h.mem_iff.mp (listMax_mem hne)))
    (le_listMax (h.mem_iff.mpr (listMax_mem hne₂)))

theorem listMin_perm {l₁ l₂ : List ℚ} (h : l₁.Perm l₂) (hne : l₁ ≠ []) :
    listMin l₁ = listMin l₂ := by
  have hne₂ : l₂ ≠ [] := by
    intro hc; subst hc; exact hne h.eq_nil
  exact le_antisymm
    (listMin_le (h.mem_iff.mpr (listMin_mem hne₂)))
    (listMin_le (h.mem_iff.mp (listMin_mem hne)))

/-- `ItemCalculator.calculate_price_and_score90`: seeds the item's sell price,
accuracy, postage, and product count from the ≥90-accuracy pool.  The pool is
sorted in place (second component of the result).  `fpow` models `** 0.5`.
`none` models the `ZeroDivisionError` raised on an empty pool. -/
def calculate_price_and_score90 (fpow : ℚ → ℚ → ℚ) (item : Item)
    (accuracy90 : List Product) : Option (Item × List Product) :=
  match accuracy90 with
  | [] => none
  | p₀ :: _ =>
    let closest_price := p₀.total_price
    let postage_prices :=
      (accuracy90.filter (fun p => 0 < p.postage_price)).map (fun p => p.postage_price)
    let estimated_postage_price :=
      if postage_prices ≠ [] then postage_prices.sum / postage_prices.length else 0
    let sorted := accuracy90.mergeSort (fun a b => a.accuracy_score ≤ b.accuracy_score)
    let scores := sorted.map (fun p => p.accuracy_score)
    let accuracy_score := if sorted ≠ [] then scores.sum / scores.length else 0
    let accuracy_score := accuracy_score *
      (if sorted ≠ [] then fpow (listMax scores / max 1 (listMin scores)) (1/2) else 1)
    some
      ({ item with
         sell_price := round2 closest_price
         accuracy_score := round2 accuracy_score
         postage_price := round2 estimated_postage_price
         num_products := accuracy90.length }, sorted)

/-- `ItemCalculator.set_scores`: sqrt compression of accuracy, small-sample
penalties, rounding, then the name-certainty penalty and the price-quality
metric.  `fpow` models `**`. -/
def set_scores (fpow : ℚ → ℚ → ℚ) (item : Item) : Item :=
  let acc₁ := 100 * fpow (item.accuracy_score / 100) (1/2)
  let acc₂ :=
    if item.num_products = 1 then acc₁ * (7/10)
    else if item.num_products = 2 then acc₁ * (85/100)
    else if item.num_products = 3 then acc₁ * (95/100)
    else acc₁
  let acc₃ := round2 acc₂
  let certainty_penalty := acc₃ - fpow acc₃ (fpow item.name_certainty (1/2))
  { item with
    accuracy_score := acc₃
    price_quality :=
      if 0 < item.total_price then
        fpow ((acc₃ - certainty_penalty) / item.total_price) (11/10)
      else 0 }

/-- Shared evaluation lemma: on a nonempty pool the seeded accuracy equals the
mean of the pool's scores times the `(max/max(1,min)) ** 0.5` factor, rounded,
with the max/min/mean taken over the incoming pool (sorting permutes it). -/
theorem calc90_accuracy_formula (fpow : ℚ → ℚ → ℚ) (item : Item)
    (accuracy90 : List Product) (hne : accuracy90 ≠ []) :
    ∃ r, calculate_price_and_score90 fpow item accuracy90 = some r ∧
      r.1.accuracy_score =
        round2 (((accuracy90.map (fun p => p.accuracy_score)).sum / accuracy90.length) *
          fpow (listMax (accuracy90.map (fun p => p.accuracy_score)) /
              max 1 (listMin (accuracy90.map (fun p => p.accuracy_score)))) (1/2)) ∧
      r.1.num_products = accuracy90.length := by
  match accuracy90, hne with
  | p₀ :: rest, _ =>
    refine ⟨_, rfl, ?_, rfl⟩
    have hperm : ((p₀ :: rest).mergeSort
        (fun a b => a.accuracy_score ≤ b.accuracy_score)).Perm (p₀ :: rest) :=
      List.mergeSort_perm _ _
    have hmapperm :
        (((p₀ :: rest).mergeSort (fun a b => a.accuracy_score ≤ b.accuracy_score)).map
            (fun p => p.accuracy_score)).Perm
          ((p₀ :: rest).map (fun p => p.accuracy_score)) := hperm.map _
    have hsne : ((p₀ :: rest).mergeSort
        (fun a b => a.accuracy_score ≤ b.accuracy_score)) ≠ [] := by
      intro hc
      have := hperm.length_eq
      rw [hc] at this
      simp at this
    have hmne : (((p₀ :: rest).mergeSort (fun a b => a.accuracy_score ≤ b.accuracy_score)).map
        (fun p => p.accuracy_score)) ≠ [] := by
      simpa using hsne
    dsimp only
    rw [if_pos hsne, if_pos hsne]
    rw [hmapperm.sum_eq, hmapperm.length_eq, listMax_perm hmapperm hmne,
      listMin_perm hmapperm hmne]
    simp

end ItemCalculator

/-- C1 (amended): the aggregation boundary applies no clamp.  On a nonempty
rich-regime pool the seeded confidence equals
`round2(mean × ((max/max(1,min)) ** 0.5))`; it is nonnegative whenever all
candidate scores are nonnegative (and `**` preserves nonnegativity), but
nothing bounds it by 100 — the spread factor is ≥ 1 and can push it above 100
(see the counterexample).  The later `set_scores` stage does not restore the
bound either: an out-of-range confidence stays ≥ 100 through it. -/
theorem rich_regime_no_clamp (fpow : ℚ → ℚ → ℚ)
    (hf : ∀ x, 0 ≤ x → 0 ≤ fpow x (1/2))
    (item : ItemCalculator.Item) (accuracy90 : List ItemCalculator.Product)
    (hne : accuracy90 ≠ [])
    (hnn : ∀ p ∈ accuracy90, 0 ≤ p.accuracy_score) :
    (∃ r, ItemCalculator.calculate_price_and_score90 fpow item accuracy90 = some r ∧
      0 ≤ r.1.accuracy_score ∧
      r.1.accuracy_score =
        round2 (((accuracy90.map (fun p => p.accuracy_score)).sum / accuracy90.length) *
          fpow (ItemCalculator.listMax (accuracy90.map (fun p => p.accuracy_score)) /
              max 1 (ItemCalculator.listMin (accuracy90.map (fun p => p.accuracy_score))))
            (1/2))) ∧
    (∀ it : ItemCalculator.Item, (∀ x, 1 ≤ x → 1 ≤ fpow x (1/2)) →
      100 ≤ it.accuracy_score → 4 ≤ it.num_products →
      100 ≤ (ItemCalculator.set_scores fpow it).accuracy_score) := by
  constructor
  · obtain ⟨r, hr, hacc, hnum⟩ :=
      ItemCalculator.calc90_accuracy_formula fpow item accuracy90 hne
    have hmne : accuracy90.map (fun p => p.accuracy_score) ≠ [] := by
      simpa using hne
    have hsum : 0 ≤ (accuracy90.map (fun p => p.accuracy_score)).sum := by
      apply List.sum_nonneg
      intro x hx
      rcases List.mem_map.mp hx with ⟨p, hp, rfl⟩
      exact hnn p hp
    have hmax : 0 ≤ ItemCalculator.listMax (accuracy90.map (fun p => p.accuracy_score)) := by
      rcases List.mem_map.mp (ItemCalculator.listMax_mem hmne) with ⟨p, hp, heq⟩
      rw [← heq]
      exact hnn p hp
    have hden : (0 : ℚ) < max 1 (ItemCalculator.listMin
        (accuracy90.map (fun p => p.accuracy_score))) :=
      lt_of_lt_of_le one_pos (le_max_left 1 _)
    refine ⟨r, hr, ?_, hacc⟩
    rw [hacc]
    apply round2_nonneg
    apply mul_nonneg
    · apply div_nonneg hsum (by positivity)
    · exact hf _ (div_nonneg hmax hden.le)
  · intro it hmono hacc hnum
    unfold ItemCalculator.set_scores
    dsimp only
    rw [if_neg (by omega), if_neg (by omega), if_neg (by omega)]
    have h1 : (1 : ℚ) ≤ fpow (it.accuracy_score / 100) (1/2) := by
      apply hmono
      linarith
    have h2 : (100 : ℚ) ≤ 100 * fpow (it.accuracy_score / 100) (1/2) := by linarith
    have h3 := round2_ge_intDiv (n := 10000)
      (x := 100 * fpow (it.accuracy_score / 100) (1/2)) (by push_cast; linarith)
    push_cast at h3
    linarith

/-- C1 witness: a single candidate at confidence 100 (constant-1 oracle): the
aggregate is well-defined and nonnegative, and a confidence of 100 with six
products survives `set_scores` at ≥ 100. -/
theorem rich_regime_no_clamp_witness :
    (∃ r, ItemCalculator.calculate_price_and_score90 (fun _ _ => 1)
        {} [{ accuracy_score := 100, total_price := 10 }] = some r ∧
      0 ≤ r.1.accuracy_score) ∧
    100 ≤ (ItemCalculator.set_scores (fun _ _ => 1)
      { accuracy_score := 100, num_products := 6 }).accuracy_score := by
  have h := rich_regime_no_clamp (fun _ _ => 1) (fun x _ => by norm_num)
    {} [{ accuracy_score := 100, total_price := 10 }] (by simp)
    (by intro p hp; simp at hp; rw [hp]; norm_num)
  obtain ⟨⟨r, hr, hnn, _⟩, hset⟩ := h
  exact ⟨⟨r, hr, hnn⟩, hset _ (fun x _ => le_refl 1) (by norm_num) (by norm_num)⟩

/-- The six-candidate pool of the C1 counterexample: scores 64 and five 100s,
all within [0, 100]. -/
def spreadPool : List ItemCalculator.Product :=
  [{ accuracy_score := 64, total_price := 10 },
   { accuracy_score := 100, total_price := 10 },
   { accuracy_score := 100, total_price := 10 },
   { accuracy_score := 100, total_price := 10 },
   { accuracy_score := 100, total_price := 10 },
   { accuracy_score := 100, total_price := 10 }]

/-- C1 counterexample: with six in-range candidate scores {64,100,100,100,100,
100} the rich-regime aggregate confidence is 117.5 > 100: no clamp is applied
at the aggregation boundary.  The oracle value 5/4 used for `** 0.5` is exact:
it squares to the spread ratio 25/16 (= 100/64, a dyadic rational, so the
float computation is exact here too). -/
theorem rich_regime_overflow :
    ((5/4 : ℚ) * (5/4) = 25/16 ∧
      ItemCalculator.listMax (spreadPool.map (fun p => p.accuracy_score)) /
          max 1 (ItemCalculator.listMin (spreadPool.map (fun p => p.accuracy_score)))
        = 25/16) ∧
    (∀ p ∈ spreadPool, 0 ≤ p.accuracy_score ∧ p.accuracy_score ≤ 100) ∧
    (∃ r, ItemCalculator.calculate_price_and_score90 (fun _ _ => 5/4) {} spreadPool
        = some r ∧ r.1.accuracy_score = 235/2 ∧ 100 < r.1.accuracy_score) := by
  have hratio : ItemCalculator.listMax (spreadPool.map (fun p => p.accuracy_score)) /
      max 1 (ItemCalculator.listMin (spreadPool.map (fun p => p.accuracy_score)))
        = 25/16 := by
    norm_num [spreadPool, ItemCalculator.listMax, ItemCalculator.listMin]
  refine ⟨⟨by norm_num, hratio⟩, ?_, ?_⟩
  · intro p hp
    simp only [spreadPool, List.mem_cons, List.not_mem_nil, or_false] at hp
    rcases hp with rfl | rfl | rfl | rfl | rfl | rfl <;> norm_num
  · obtain ⟨r, hr, hacc, _⟩ :=
      ItemCalculator.calc90_accuracy_formula (fun _ _ => 5/4) {} spreadPool (by simp [spreadPool])
    refine ⟨r, hr, ?_, ?_⟩
    · rw [hacc]
      norm_num [spreadPool, round2, roundHalfEven]
    · rw [hacc]
      norm_num [spreadPool, round2, roundHalfEven]

namespace TokenSet

/-- Python regex `\d` restricted to ASCII (all strings in this code base are
ASCII marketplace titles). -/
def isDigitC (c : Char) : Bool := c.isDigit

/-- Python regex class `[^\W\d_]` (a word character that is neither a digit
nor an underscore), ASCII view: a letter. -/
def isAlphaC (c : Char) : Bool := c.isAlpha

/-- Python regex `\s`. -/
def isSpaceC (c : Char) : Bool :=
  c = ' ' || c = '\t' || c = '\n' || c = '\x0d' || c = '\x0b' || c = '\x0c'

/-- Python regex `\w`, ASCII view. -/
def isWordC (c : Char) : Bool := c.isAlphanum || c = '_'

/-- Python regex class `[^\w\s]`: a symbol character. -/
def isSymC (c : Char) : Bool := !(isWordC c || isSpaceC c)

/-- `TokenSet.tokenize_variant_name`, raw-token stream: the left-to-right
scan of `re.findall(r'\d+(?:\.\d+)?\s*|[^\W\d_]+\s*|[^\w\s]\s*', s)` over the
character list of `s`.  Each returned token is the verbatim matched substring
(trailing whitespace included).  A character at which no alternative can start
(an underscore, or whitespace not already consumed as a token's trailing
`\s*`) is skipped by `findall`, exactly as in the regex engine. -/
def tokenize_variant_name : List Char → List (List Char)
  | [] => []
  | c :: cs =>
    if isDigitC c then
      let ds := (c :: cs).takeWhile isDigitC
      let r₁ := (c :: cs).dropWhile isDigitC
      match hr : r₁ with
      | '.' :: c₂ :: r₂ =>
        if isDigitC c₂ then
          let ds₂ := (c₂ :: r₂).takeWhile isDigitC
          let r₃ := (c₂ :: r₂).dropWhile isDigitC
          (ds ++ '.' :: ds₂ ++ r₃.takeWhile isSpaceC)
            :: tokenize_variant_name (r₃.dropWhile isSpaceC)
        else
          (ds ++ r₁.takeWhile isSpaceC) :: tokenize_variant_name (r₁.dropWhile isSpaceC)
      | _ =>
          (ds ++ r₁.takeWhile isSpaceC) :: tokenize_variant_name (r₁.dropWhile isSpaceC)
    else if isAlphaC c then
      let r₁ := (c :: cs).dropWhile isAlphaC
      ((c :: cs).takeWhile isAlphaC ++ r₁.takeWhile isSpaceC)
        :: tokenize_variant_name (r₁.dropWhile isSpaceC)
    else if isSymC c then
      (c :: cs.takeWhile isSpaceC) :: tokenize_variant_name (cs.dropWhile isSpaceC)
    else
      tokenize_variant_name cs
  termination_by l => l.length
  decreasing_by
  all_goals simp_wf
  · have h1 : ((c :: cs).dropWhile isDigitC).length ≤ cs.length := by
      rw [List.dropWhile_cons]
      simp only [*, if_true]
      exact (List.dropWhile_sublist _).length_le
    have hr' : List.dropWhile isDigitC (c :: cs) = '.' :: c₂ :: r₂ := hr
    rw [hr'] at h1
    have h2 : ((c₂ :: r₂).dropWhile isDigitC).length ≤ (c₂ :: r₂).length :=
      (List.dropWhile_sublist _).length_le
    have h3 : (((c₂ :: r₂).dropWhile isDigitC).dropWhile isSpaceC).length
        ≤ ((c₂ :: r₂).dropWhile isDigitC).length := (List.dropWhile_sublist _).length_le
    have h4 : (c₂ :: r₂).length = r₂.length + 1 := by simp
    simp at h1
    omega
  · have h1 : ((c :: cs).dropWhile isDigitC).length ≤ cs.length := by
      rw [List.dropWhile_cons]
      simp only [*, if_true]
      exact (List.dropWhile_sublist _).length_le
    have h2 : (((c :: cs).dropWhile isDigitC).dropWhile isSpaceC).length
        ≤ ((c :: cs).dropWhile isDigitC).length := (List.dropWhile_sublist _).length_le
    omega
  · have h1 : ((c :: cs).dropWhile isDigitC).length ≤ cs.length := by
      rw [List.dropWhile_cons]
      simp only [*, if_true]
      exact (List.dropWhile_sublist _).length_le
    have h2 : (((c :: cs).dropWhile isDigitC).dropWhile isSpaceC).length
        ≤ ((c :: cs).dropWhile isDigitC).length := (List.dropWhile_sublist _).length_le
    omega
  · have h1 : ((c :: cs).dropWhile isAlphaC).length ≤ cs.length := by
      rw [List.dropWhile_cons]
      simp only [*, if_true]
      exact (List.dropWhile_sublist _).length_le
    have h2 : (((c :: cs).dropWhile isAlphaC).dropWhile isSpaceC).length
        ≤ ((c :: cs).dropWhile isAlphaC).length := (List.dropWhile_sublist _).length_le
    omega
  · have h2 : (cs.dropWhile isSpaceC).length ≤ cs.length := (List.dropWhile_sublist _).length_le
    omega

/-- Heads surviving `dropWhile p` never satisfy `p`. -/
theorem head_dropWhile_false (p : Char → Bool) :
    ∀ (l : List Char) {c : Char}, (l.dropWhile p).head? = some c → p c = false
  | [], c, h => by simp [List.dropWhile] at h
  | a :: l, c, h => by
    rw [List.dropWhile_cons] at h
    by_cases hp : p a
    · exact head_dropWhile_false p l (by simpa [hp] using h)
    · simp [hp] at h
      subst h
      simpa using hp

/-- C2 (amended): for every input that contains no underscore and does not
start with whitespace, concatenating, in order, all raw tokens produced by the
tokenizer reproduces the original string exactly (each character belongs to
exactly one token, whitespace attached as trailing content).  Underscores and
leading whitespace are matched by no alternative of the token pattern and are
dropped by `re.findall` (see the counterexample). -/
theorem tokenize_variant_name_roundTrip (l : List Char) :
    '_' ∉ l → (∀ c, l.head? = some c → isSpaceC c = false) →
    (tokenize_variant_name l).flatten = l := by
  induction l using tokenize_variant_name.induct with
  | case1 =>
    intro _ _
    simp [tokenize_variant_name]
  | case2 c cs hdig r₁ c₂ r₂ hr hdig₂ r₃ ih =>
    intro hu hh
    have hr' : List.dropWhile isDigitC (c :: cs) = '.' :: c₂ :: r₂ := hr
    have s4 : ('.' :: c₂ :: r₂).Sublist (c :: cs) := hr' ▸ List.dropWhile_sublist _
    have ssub : (List.dropWhile isSpaceC r₃).Sublist (c :: cs) :=
      ((List.dropWhile_sublist _).trans ((List.dropWhile_sublist _).trans
        ((List.sublist_cons_self _ _).trans s4)))
    have hu₄ : '_' ∉ List.dropWhile isSpaceC r₃ := fun hm => hu (ssub.subset hm)
    have hh₄ : ∀ c', (List.dropWhile isSpaceC r₃).head? = some c' → isSpaceC c' = false :=
      fun c' h => head_dropWhile_false isSpaceC r₃ h
    rw [tokenize_variant_name]
    simp only [hdig, if_true]
    split
    · rename_i c₂' r₂' heq
      rw [hr'] at heq
      injection heq with h1 h2
      injection h2 with h3 h4
      subst h3
      subst h4
      rw [if_pos hdig₂, List.flatten_cons, ih hu₄ hh₄]
      have e3 : r₃.takeWhile isSpaceC ++ r₃.dropWhile isSpaceC = r₃ :=
        List.takeWhile_append_dropWhile _ _
      have e2 : (c₂ :: r₂).takeWhile isDigitC ++ r₃ = c₂ :: r₂ :=
        List.takeWhile_append_dropWhile _ _
      have e1 : (c :: cs).takeWhile isDigitC ++ List.dropWhile isDigitC (c :: cs) = c :: cs :=
        List.takeWhile_append_dropWhile _ _
      simp only [List.append_assoc, List.cons_append]
      rw [e3, e2, ← hr', e1]
    · rename_i hnomatch
      exact absurd hr' (hnomatch c₂ r₂)
  | case3 c cs hdig r₁ c₂ r₂ hr hndig ih =>
    intro hu hh
    have hr' : List.dropWhile isDigitC (c :: cs) = '.' :: c₂ :: r₂ := hr
    have ssub : (List.dropWhile isSpaceC r₁).Sublist (c :: cs) :=
      (List.dropWhile_sublist _).trans (List.dropWhile_sublist _)
    have hu₄ : '_' ∉ List.dropWhile isSpaceC r₁ := fun hm => hu (ssub.subset hm)
    have hh₄ : ∀ c', (List.dropWhile isSpaceC r₁).head? = some c' → isSpaceC c' = false :=
      fun c' h => head_dropWhile_false isSpaceC r₁ h
    rw [tokenize_variant_name]
    simp only [hdig, if_true]
    split
    · rename_i c₂' r₂' heq
      rw [hr'] at heq
      injection heq with h1 h2
      injection h2 with h3 h4
      subst h3
      subst h4
      rw [if_neg hndig, List.flatten_cons, ih hu₄ hh₄]
      simp only [List.append_assoc]
      rw [List.takeWhile_append_dropWhile, List.takeWhile_append_dropWhile]
    · rename_i hnomatch
      exact absurd hr' (hnomatch c₂ r₂)
  | case4 c cs hdig r₁ hnm ih =>
    intro hu hh
    have ssub : (List.dropWhile isSpaceC r₁).Sublist (c :: cs) :=
      (List.dropWhile_sublist _).trans (List.dropWhile_sublist _)
    have hu₄ : '_' ∉ List.dropWhile isSpaceC r₁ := fun hm => hu (ssub.subset hm)
    have hh₄ : ∀ c', (List.dropWhile isSpaceC r₁).head? = some c' → isSpaceC c' = false :=
      fun c' h => head_dropWhile_false isSpaceC r₁ h
    rw [tokenize_variant_name]
    simp only [hdig, if_true]
    rw [List.flatten_cons, ih hu₄ hh₄]
    simp only [List.append_assoc]
    rw [List.takeWhile_append_dropWhile, List.takeWhile_append_dropWhile]
  | case5 c cs hdig halpha r₁ ih =>
    intro hu hh
    have ssub : (List.dropWhile isSpaceC r₁).Sublist (c :: cs) :=
      (List.dropWhile_sublist _).trans (List.dropWhile_sublist _)
    have hu₄ : '_' ∉ List.dropWhile isSpaceC r₁ := fun hm => hu (ssub.subset hm)
    have hh₄ : ∀ c', (List.dropWhile isSpaceC r₁).head? = some c' → isSpaceC c' = false :=
      fun c' h => head_dropWhile_false isSpaceC r₁ h
    rw [tokenize_variant_name]
    rw [if_neg (by simpa using hdig), if_pos halpha]
    rw [List.flatten_cons, ih hu₄ hh₄]
    simp only [List.append_assoc]
    rw [List.takeWhile_append_dropWhile, List.takeWhile_append_dropWhile]
  | case6 c cs hdig halpha hsym ih =>
    intro hu hh
    have ssub : (List.dropWhile isSpaceC cs).Sublist (c :: cs) :=
      (List.dropWhile_sublist _).trans (List.sublist_cons_self _ _)
    have hu₄ : '_' ∉ List.dropWhile isSpaceC cs := fun hm => hu (ssub.subset hm)
    have hh₄ : ∀ c', (List.dropWhile isSpaceC cs).head? = some c' → isSpaceC c' = false :=
      fun c' h => head_dropWhile_false isSpaceC cs h
    rw [tokenize_variant_name]
    rw [if_neg (by simpa using hdig), if_neg (by simpa using halpha), if_pos hsym]
    rw [List.flatten_cons, ih hu₄ hh₄]
    simp only [List.cons_append]
    rw [List.takeWhile_append_dropWhile]
  | case7 c cs hdig halpha hsym ih =>
    intro hu hh
    exfalso
    have h0 : isSymC c = false := by simpa using hsym
    unfold isSymC at h0
    rw [Bool.not_eq_false'] at h0
    have hsp : isSpaceC c = false := hh c rfl
    rw [hsp, Bool.or_false] at h0
    unfold isWordC at h0
    have hna : c.isAlphanum = false := by
      unfold Char.isAlphanum
      simp only [isDigitC] at hdig
      simp only [isAlphaC] at halpha
      rw [Bool.or_eq_false_iff]
      exact ⟨Bool.eq_false_iff.mpr halpha, Bool.eq_false_iff.mpr hdig⟩
    rw [hna, Bool.false_or] at h0
    have hc : c = '_' := by simpa using h0
    subst hc
    exact hu (List.mem_cons_self _ _)
end TokenSet

/-- C2 witness: the variant text "30ml x" (no underscore, no leading space)
round-trips through the tokenizer. -/
theorem tokenize_variant_name_roundTrip_witness :
    (TokenSet.tokenize_variant_name ['3', '0', 'm', 'l', ' ', 'x']).flatten
      = ['3', '0', 'm', 'l', ' ', 'x'] :=
  TokenSet.tokenize_variant_name_roundTrip _ (by decide) (by decide)

/-- C2 counterexample: the tokenizer drops characters, so the round-trip of
the claim fails as stated: an underscore is assigned to no token ("x_y"
re-concatenates to "xy"), and so is leading whitespace (" a" re-concatenates
to "a"). -/
theorem tokenize_variant_name_drops_characters :
    (TokenSet.tokenize_variant_name ['x', '_', 'y']).flatten = ['x', 'y'] ∧
    (TokenSet.tokenize_variant_name ['x', '_', 'y']).flatten ≠ ['x', '_', 'y'] ∧
    (TokenSet.tokenize_variant_name [' ', 'a']).flatten = ['a'] ∧
    (TokenSet.tokenize_variant_name [' ', 'a']).flatten ≠ [' ', 'a'] := by
  have h1 : (TokenSet.tokenize_variant_name ['x', '_', 'y']).flatten = ['x', 'y'] := by
    simp [TokenSet.tokenize_variant_name, TokenSet.isDigitC, TokenSet.isAlphaC,
      TokenSet.isSymC, TokenSet.isSpaceC, TokenSet.isWordC]
  have h2 : (TokenSet.tokenize_variant_name [' ', 'a']).flatten = ['a'] := by
    simp [TokenSet.tokenize_variant_name, TokenSet.isDigitC, TokenSet.isAlphaC,
      TokenSet.isSymC, TokenSet.isSpaceC, TokenSet.isWordC]
  refine ⟨h1, ?_, h2, ?_⟩
  · rw [h1]; decide
  · rw [h2]; decide


namespace ProductCleaner

/-- A token of the candidate's variant `TokenSet`, as consumed by
`ProductCleaner.convert_values`: `key` is `raw.strip().lower()` (used both for
the `in item_units` membership test and as the literal regex pattern), and
`val?` is `some v` when the token is a numeric token of value `float(raw) = v`
(`none` for word/symbol tokens). -/
structure Tok where
  key : String
  val? : Option ℚ := none
  deriving Repr, DecidableEq

/-- `token_normalized.isdigit()`: the normalized form of a numeric token is
`str(float(raw))` with the trailing `.0` stripped, so it is all digits exactly
when the value is integral. -/
def Tok.isIntTok (t : Tok) : Bool :=
  match t.val? with
  | some v => v.den = 1
  | none => false

/-- Case-insensitive prefix test (the compiled form of an `re.escape`d literal
pattern under `re.IGNORECASE`, ASCII case folding). -/
def ciMatchPre : List Char → List Char → Bool
  | [], _ => true
  | _ :: _, [] => false
  | p :: ps, c :: cs => (p.toLower = c.toLower) && ciMatchPre ps cs

/-- `re.sub(re.escape(pat), repl, text, flags=re.IGNORECASE)` for a nonempty
literal pattern: replace every non-overlapping leftmost occurrence.  (The
empty pattern never arises: patterns are built from nonempty token keys; for
totality an empty pattern replaces nothing.) -/
def ciReplaceAllAux (pat repl : List Char) : List Char → List Char
  | [] => []
  | c :: cs =>
    if ciMatchPre pat (c :: cs) ∧ pat ≠ [] then
      repl ++ ciReplaceAllAux pat repl ((c :: cs).drop pat.length)
    else
      c :: ciReplaceAllAux pat repl cs
  termination_by l => l.length
  decreasing_by
  · rename_i h
    rw [List.length_drop]
    have : pat.length ≠ 0 := fun hc => h.2 (List.eq_nil_of_length_eq_zero hc)
    simp only [List.length_cons]
    omega
  · simp only [List.length_cons]
    omega

def ciReplaceAll (text pat repl : String) : String :=
  ⟨ciReplaceAllAux pat.toList repl.toList text.toList⟩

/-- The candidate state read and mutated by `convert_values`: the displayed
variant text, the listing price, the accuracy score, and the item's remaining
measurement units/values (`item_units`/`item_values`, popped in front as they
are consumed). -/
structure CVState where
  variant_name : String := ""
  listing_price : ℚ := 0
  accuracy_score : ℚ := 100
  item_units : List String := []
  item_values : List ℚ := []
  deriving Repr, DecidableEq

/-- `ProductCleaner.convert_values`: walk the (fixed, pre-computed) token
stream; at each numeric token whose following token's key is one of the
remaining `item_units`, rewrite the displayed value to the item's canonical
value, scale the price by `divisor ** 0.59`, degrade the accuracy for an
inverted divisor > 1 (0 from 30 up), and pop the consumed unit/value.
`fpow` models `**`, `fstr` models `str()` of a float.  `none` models the
`ZeroDivisionError` on a zero item value and the `IndexError` when
`item_values` is exhausted before `item_units`. -/
def convert_values (fpow : ℚ → ℚ → ℚ) (fstr : ℚ → String) :
    List Tok → CVState → Option CVState
  | [], s => some s
  | [_], s => some s
  | t :: u :: rest, s =>
    if t.isIntTok = true ∧ s.item_units ≠ [] ∧ u.key ∈ s.item_units then
      match s.item_values, t.val? with
      | item_value :: vrest, some v =>
        if item_value = 0 then none
        else
          let divisor := v / item_value
          let variant' :=
            ciReplaceAll s.variant_name (t.key ++ u.key) (fstr item_value ++ u.key)
          let price' :=
            if divisor ≠ 1 then round2 (s.listing_price / fpow divisor (59/100))
            else s.listing_price
          let divisor₂ := if divisor < 1 then 1 / divisor else divisor
          let acc' :=
            if 1 < divisor₂ then
              (if 30 ≤ divisor₂ then 0
               else round2 (s.accuracy_score * (1 - 13/100 * fpow divisor₂ (6/10))))
            else s.accuracy_score
          convert_values fpow fstr (u :: rest)
            { variant_name := variant', listing_price := price', accuracy_score := acc',
              item_units := s.item_units.tail, item_values := vrest }
      | _, _ => none
    else convert_values fpow fstr (u :: rest) s

/-- No adjacent (numeric, unit) pair of the stream matches against `units`. -/
def noCVMatch (units : List String) : List Tok → Prop
  | [] => True
  | [_] => True
  | t :: u :: rest =>
    ¬(t.isIntTok = true ∧ units ≠ [] ∧ u.key ∈ units) ∧ noCVMatch units (u :: rest)

theorem noCVMatch_tail {units : List String} :
    ∀ {a : Tok} {l : List Tok}, noCVMatch units (a :: l) → noCVMatch units l := by
  intro a l h
  match l with
  | [] => trivial
  | x :: xs => exact h.2

/-- A prefix of the stream in which no pair matches is skipped unchanged. -/
theorem convert_values_skip (fpow : ℚ → ℚ → ℚ) (fstr : ℚ → String) :
    ∀ (pre post : List Tok) (s : CVState),
      noCVMatch s.item_units (pre ++ post.take 1) →
      convert_values fpow fstr (pre ++ post) s = convert_values fpow fstr post s := by
  intro pre
  induction pre with
  | nil => intro post s _; rfl
  | cons a pre' ih =>
    intro post s h
    rcases hp : pre' ++ post with _ | ⟨b, rest₂⟩
    · rcases List.append_eq_nil.mp hp with ⟨rfl, rfl⟩
      rfl
    · have hcons : a :: pre' ++ post = a :: b :: rest₂ := by
        rw [List.cons_append, hp]
      rw [hcons]
      have hnm : ¬(a.isIntTok = true ∧ s.item_units ≠ [] ∧ b.key ∈ s.item_units) := by
        rcases pre' with _ | ⟨c, pre''⟩
        · simp only [List.nil_append] at hp ⊢
          rcases post with _ | ⟨d, post'⟩
          · simp at hp
          · simp only [List.take] at h
            injection hp with h1 _
            subst h1
            exact h.1
        · injection hp with h1 _
          subst h1
          exact h.1
      show convert_values fpow fstr (a :: b :: rest₂) s = convert_values fpow fstr post s
      rw [convert_values]
      rw [if_neg hnm]
      rw [← hp]
      apply ih
      have : noCVMatch s.item_units (pre' ++ post.take 1) := by
        have h' : noCVMatch s.item_units (a :: (pre' ++ post.take 1)) := by
          simpa using h
        exact noCVMatch_tail h'
      exact this
end ProductCleaner

/-- C4: for the first number–unit pair of the candidate's variant whose unit
matches one of the target's remaining declared units, `convert_values`
replaces the displayed value with the target's canonical (first) value,
computes `divisor = candidate_value / target_value`, divides the listing
price by `divisor ** 0.59` when the divisor is not 1, and — with the divisor
inverted to be ≥ 1 — multiplies the confidence by `1 − 0.13·divisor**0.6`
when it exceeds 1 and sets it to exactly 0 once it reaches 30; the consumed
measurement is popped and processing continues after the pair. -/
theorem convert_values_first_match (fpow : ℚ → ℚ → ℚ) (fstr : ℚ → String)
    (pre rest : List ProductCleaner.Tok) (t u : ProductCleaner.Tok)
    (s : ProductCleaner.CVState) (v item_value : ℚ) (vrest : List ℚ)
    (hpre : ProductCleaner.noCVMatch s.item_units (pre ++ [t]))
    (hint : t.isIntTok = true) (hv : t.val? = some v)
    (hu : u.key ∈ s.item_units)
    (hvals : s.item_values = item_value :: vrest) (hiv : item_value ≠ 0) :
    ProductCleaner.convert_values fpow fstr (pre ++ t :: u :: rest) s
      = ProductCleaner.convert_values fpow fstr (u :: rest)
        { variant_name :=
            ProductCleaner.ciReplaceAll s.variant_name (t.key ++ u.key)
              (fstr item_value ++ u.key)
          listing_price :=
            if v / item_value ≠ 1 then
              round2 (s.listing_price / fpow (v / item_value) (59/100))
            else s.listing_price
          accuracy_score :=
            if 1 < (if v / item_value < 1 then 1 / (v / item_value) else v / item_value) then
              (if 30 ≤ (if v / item_value < 1 then 1 / (v / item_value) else v / item_value)
                then 0
                else round2 (s.accuracy_score * (1 - 13/100 *
                  fpow (if v / item_value < 1 then 1 / (v / item_value) else v / item_value)
                    (6/10))))
            else s.accuracy_score
          item_units := s.item_units.tail
          item_values := vrest } := by
  have hne : s.item_units ≠ [] := List.ne_nil_of_mem hu
  have hskip := ProductCleaner.convert_values_skip fpow fstr pre (t :: u :: rest) s
    (by simpa using hpre)
  rw [hskip]
  rw [ProductCleaner.convert_values]
  rw [if_pos ⟨hint, hne, hu⟩]
  rw [hvals, hv]
  dsimp only
  rw [if_neg hiv]

/-- C4 witness: variant "Primer 50ml" with price 8, accuracy 90, target
measurement 25 ml: divisor is 2, price becomes round2(8 / oracle) = 8 under
the constant-1 oracle, accuracy becomes round2(90·(1−0.13)) = 78.3, and the
measurement is consumed. -/
theorem convert_values_first_match_witness :
    ProductCleaner.convert_values (fun _ _ => 1) (fun _ => "25.0")
      ([{ key := "primer" }] ++ { key := "50", val? := some 50 }
        :: { key := "ml" } :: [])
      { variant_name := "Primer 50ml", listing_price := 8, accuracy_score := 90,
        item_units := ["ml"], item_values := [25] }
      = some
        { variant_name :=
            ProductCleaner.ciReplaceAll "Primer 50ml" ("50" ++ "ml") ("25.0" ++ "ml")
          listing_price := 8
          accuracy_score := 783/10
          item_units := []
          item_values := [] } := by
  have h := convert_values_first_match (fun _ _ => 1) (fun _ => "25.0")
    [{ key := "primer" }] [] { key := "50", val? := some 50 } { key := "ml" }
    { variant_name := "Primer 50ml", listing_price := 8, accuracy_score := 90,
      item_units := ["ml"], item_values := [25] }
    50 25 []
    (by constructor
        · intro hc
          rcases hc with ⟨hc1, _, _⟩
          simp [ProductCleaner.Tok.isIntTok] at hc1
        · trivial)
    (by simp [ProductCleaner.Tok.isIntTok])
    rfl (by simp) rfl (by norm_num)
  rw [h]
  rw [ProductCleaner.convert_values]
  have hdiv : (50 : ℚ) / 25 = 2 := by norm_num
  rw [hdiv]
  norm_num [round2, roundHalfEven]

namespace GoodCleaner

/-- Python `str.strip()` (ASCII whitespace at both ends). -/
def stripL (cs : List Char) : List Char :=
  ((cs.dropWhile TokenSet.isSpaceC).reverse.dropWhile TokenSet.isSpaceC).reverse

def strip (s : String) : String := ⟨stripL s.toList⟩

/-- Python `str.lower()` (ASCII). -/
def lowerS (s : String) : String := ⟨s.toList.map Char.toLower⟩

/-- `needle.lower() in haystack.lower()`: case-insensitive substring test. -/
def containsCIL (text pat : List Char) : Bool :=
  match text with
  | [] => pat = []
  | _ :: cs => ProductCleaner.ciMatchPre pat text || containsCIL cs pat

def containsCI (text pat : String) : Bool := containsCIL text.toList pat.toList

/-- `re.sub(re.escape(pat), repl, text, count=1, flags=re.IGNORECASE)`:
replace only the leftmost occurrence. -/
def ciReplaceFirstAux (pat repl : List Char) : List Char → List Char
  | [] => []
  | c :: cs =>
    if ProductCleaner.ciMatchPre pat (c :: cs) ∧ pat ≠ [] then
      repl ++ (c :: cs).drop pat.length
    else
      c :: ciReplaceFirstAux pat repl cs

def ciReplaceFirst (text pat repl : String) : String :=
  ⟨ciReplaceFirstAux pat.toList repl.toList text.toList⟩

/-- Python regex `\w` (ASCII view), for `\b` boundaries. -/
def isWordChar (c : Char) : Bool := c.isAlphanum || c = '_'

/-- `\b` at the juncture between an optional previous character and a next
character: the word-ness changes (start/end of text counts as non-word). -/
def wordBoundary (prev : Option Char) (next : Option Char) : Bool :=
  (match prev with | some c => isWordChar c | none => false)
    != (match next with | some c => isWordChar c | none => false)

/-- `re.sub(rf'\b{re.escape(pat)}\b', '', text, flags=re.IGNORECASE)`:
remove every occurrence of the literal `pat` delimited by word boundaries. -/
def wbRemoveAux (pat : List Char) : Option Char → List Char → List Char
  | _, [] => []
  | prev, c :: cs =>
    if ProductCleaner.ciMatchPre pat (c :: cs) ∧ pat ≠ [] ∧
        wordBoundary prev (some c) = true ∧
        wordBoundary pat.getLast? ((c :: cs).drop pat.length).head? = true then
      wbRemoveAux pat pat.getLast? ((c :: cs).drop pat.length)
    else
      c :: wbRemoveAux pat (some c) cs
  termination_by _ l => l.length
  decreasing_by
  · rename_i h
    rw [List.length_drop]
    have : pat.length ≠ 0 := fun hc => h.2.1 (List.eq_nil_of_length_eq_zero hc)
    simp only [List.length_cons]
    omega
  · simp only [List.length_cons]
    omega

def wbRemove (text pat : String) : String := ⟨wbRemoveAux pat.toList none text.toList⟩

/-- One element of a compiled removal pattern: a literal character (matched
case-insensitively), `\s+`, or `\s*` (as in `new\s*&\s*unused`). -/
inductive PElem
  | lit (c : Char)
  | wsPlus
  | wsStar
  deriving Repr, DecidableEq

/-- Match a compiled pattern at the head of the text, returning the remainder
after the match (greedy whitespace; every whitespace element of the source
patterns is followed by a non-space literal, so no backtracking arises). -/
def matchPat : List PElem → List Char → Option (List Char)
  | [], text => some text
  | .lit c :: ps, text =>
    match text with
    | [] => none
    | t :: ts => if t.toLower = c then matchPat ps ts else none
  | .wsPlus :: ps, text =>
    if (text.takeWhile TokenSet.isSpaceC) = [] then none
    else matchPat ps (text.dropWhile TokenSet.isSpaceC)
  | .wsStar :: ps, text => matchPat ps (text.dropWhile TokenSet.isSpaceC)

/-- A literal word as a compiled pattern. -/
def w (s : String) : List PElem := s.toList.map PElem.lit

/-- Words joined by `\s+`. -/
def ph (ws : List String) : List PElem :=
  match ws with
  | [] => []
  | [x] => w x
  | x :: rest => w x ++ [PElem.wsPlus] ++ ph rest

/-- The `removal_terms` alternation of `GoodCleaner.__init__`, in source
order (alternatives are tried in this order at every position). -/
def removal_terms : List (List PElem) :=
  [ w "new", w "brand", w "sealed", w "clearance", w "unused", w "by",
    ph ["free", "postage"], ph ["free", "delivery"],
    w "new" ++ [PElem.wsStar, PElem.lit '&', PElem.wsStar] ++ w "unused",
    w "new/unused", w "updated", w "discontinued", w "discounted",
    w "delivery", ph ["free", "shipping"], w "worldwide",
    ph ["free", "shipping", "to"],
    w "uk", w "worldwide", w "global", w "international", w "local",
    w "original", w "authentic", w "genuine", w "official",
    ph ["limited", "edition"],
    w "collectible", w "vintage", w "rare", ph ["one", "of", "a", "kind"],
    w "seller",
    w "unique", w "lot", ph ["job", "lot"], w "bulk", w "wholesale",
    w "clearance",
    ph ["job", "lot", "of"], ph ["job", "lots"],
    ph ["job", "lot", "of", "goods"], ph ["job", "lot", "of", "products"],
    ph ["job", "lot", "of", "products", "and", "goods"], ph ["for", "sale"],
    ph ["for", "auction"],
    ph ["for", "bid"], ph ["for", "purchase"], ph ["for", "buy"],
    ph ["for", "buying"], ph ["for", "selling"],
    ph ["for", "resale"], ph ["for", "wholesale"], ph ["for", "retail"],
    ph ["for", "distribution"], ph ["for", "collection"],
    ph ["for", "delivery"], ph ["for", "shipping"], ph ["free", "post"],
    ph ["free", "ship"], ph ["free", "shipp"],
    w "vegan", w "cruelty free", w "eco friendly", w "euro", w "packaging",
    w "biodegradable", w "packaging",
    w "plastic free", w "recyclable", w "sustainable", w "organic",
    w "natural", ph ["new", "with", "tags"],
    ph ["new", "with", "box"], ph ["new", "in", "box"],
    ph ["new", "in", "packaging"], ph ["new", "in", "package"],
    ph ["new", "in", "original", "packaging"],
    ph ["new", "in", "original", "package"],
    ph ["new", "with", "original", "packaging"],
    ph ["new", "with", "original", "package"],
    ph ["new", "in", "sealed", "packaging"],
    ph ["new", "in", "sealed", "package"],
    ph ["new", "with", "sealed", "packaging"],
    ph ["new", "with", "sealed", "package"],
    ph ["new", "in", "plastic", "packaging"],
    ph ["new", "in", "plastic", "package"],
    ph ["new", "with", "plastic", "packaging"],
    ph ["new", "with", "plastic", "package"],
    ph ["new", "in", "cellophane"], ph ["new", "with", "cellophane"],
    ph ["new", "in", "wrap"], ph ["new", "with", "wrap"],
    ph ["new", "in", "wrapper"], ph ["new", "with", "wrapper"],
    ph ["new", "in", "sealed", "wrap"], ph ["new", "with", "sealed", "wrap"],
    ph ["never", "used"], ph ["never", "opened"],
    ph ["never", "been", "used"], ph ["never", "been", "opened"],
    ph ["never", "been", "used", "or", "opened"] ]

/-- First alternative (in order) matching at the head of the text. -/
def tryAlts (alts : List (List PElem)) (text : List Char) : Option (List Char) :=
  match alts with
  | [] => none
  | p :: ps =>
    match matchPat p text with
    | some rest => some rest
    | none => tryAlts ps text

theorem matchPat_length_le :
    ∀ (p : List PElem) (text rest : List Char), matchPat p text = some rest →
      rest.length ≤ text.length := by
  intro p
  induction p with
  | nil =>
    intro text rest h
    rw [matchPat] at h
    injection h with h
    subst h
    exact le_refl _
  | cons e ps ih =>
    intro text rest h
    match e with
    | .lit c =>
      match text with
      | [] => rw [matchPat] at h; exact absurd h (by simp)
      | t :: ts =>
        rw [matchPat] at h
        by_cases hc : t.toLower = c
        · rw [if_pos hc] at h
          have := ih ts rest h
          simp only [List.length_cons]
          omega
        · rw [if_neg hc] at h
          exact absurd h (by simp)
    | .wsPlus =>
      rw [matchPat] at h
      by_cases hw : text.takeWhile TokenSet.isSpaceC = []
      · rw [if_pos hw] at h
        exact absurd h (by simp)
      · rw [if_neg hw] at h
        have h1 := ih _ rest h
        have h2 : (text.dropWhile TokenSet.isSpaceC).length ≤ text.length :=
          (List.dropWhile_sublist _).length_le
        omega
    | .wsStar =>
      rw [matchPat] at h
      have h1 := ih _ rest h
      have h2 : (text.dropWhile TokenSet.isSpaceC).length ≤ text.length :=
        (List.dropWhile_sublist _).length_le
      omega

theorem tryAlts_length_le (alts : List (List PElem)) :
    ∀ (text rest : List Char), tryAlts alts text = some rest →
      rest.length ≤ text.length := by
  induction alts with
  | nil => intro text rest h; simp [tryAlts] at h
  | cons p ps ih =>
    intro text rest h
    rw [tryAlts] at h
    rcases hm : matchPat p text with _ | r
    · rw [hm] at h; exact ih text rest h
    · rw [hm] at h
      injection h with h
      subst h
      exact matchPat_length_le p text _ hm

/-- `re.sub(removal_terms, '', name, flags=re.IGNORECASE)`: scan left to
right; at each position commit to the first alternative that matches, drop
the matched span, and continue after it.  (Every alternative contains a
literal, so a match is never empty; the guard is for totality only.) -/
def removalScan (text : List Char) : List Char :=
  match text with
  | [] => []
  | c :: cs =>
    match tryAlts removal_terms (c :: cs) with
    | some rest =>
      if hlt : rest.length < (c :: cs).length then removalScan rest
      else c :: removalScan cs
    | none => c :: removalScan cs
  termination_by text.length
  decreasing_by
  · exact hlt
  · simp only [List.length_cons]; omega

def removalPass (s : String) : String := ⟨removalScan s.toList⟩

/-- `re.sub(r'[-_]', ' ', name)`. -/
def hyphens (cs : List Char) : List Char :=
  cs.map (fun c => if c = '-' ∨ c = '_' then ' ' else c)

/-- The characters kept by `re.sub(r'[^a-zA-Z0-9.=\-&\s]', ' ', name)`. -/
def keptChar (c : Char) : Bool :=
  ('a' ≤ c && c ≤ 'z') || ('A' ≤ c && c ≤ 'Z') || c.isDigit ||
    c = '.' || c = '=' || c = '-' || c = '&' || TokenSet.isSpaceC c

def charFilter (cs : List Char) : List Char :=
  cs.map (fun c => if keptChar c then c else ' ')

/-- `re.sub(r'^\.+|\.+$', '', name)`. -/
def dotsEnds (cs : List Char) : List Char :=
  ((cs.dropWhile (fun c => c = '.')).reverse.dropWhile (fun c => c = '.')).reverse

/-- `re.sub(r'\.(?!\d)', ' ', name)`: a dot not followed by a digit becomes a
space. -/
def dotSpace : List Char → List Char
  | [] => []
  | '.' :: rest =>
    match rest with
    | [] => [' ']
    | d :: _ => (if d.isDigit then '.' else ' ') :: dotSpace rest
  | c :: rest => c :: dotSpace rest

/-- `re.findall(r'\d+(?:\.\d+)?', name)`. -/
def findNumbers : List Char → List (List Char)
  | [] => []
  | c :: cs =>
    if TokenSet.isDigitC c then
      let ds := (c :: cs).takeWhile TokenSet.isDigitC
      match hr : (c :: cs).dropWhile TokenSet.isDigitC with
      | '.' :: d :: r₂ =>
        if TokenSet.isDigitC d then
          (ds ++ '.' :: (d :: r₂).takeWhile TokenSet.isDigitC)
            :: findNumbers ((d :: r₂).dropWhile TokenSet.isDigitC)
        else ds :: findNumbers ('.' :: d :: r₂)
      | r₁ => ds :: findNumbers r₁
    else findNumbers cs
  termination_by l => l.length
  decreasing_by
  · have h1 : ((c :: cs).dropWhile TokenSet.isDigitC).length ≤ cs.length := by
      rw [List.dropWhile_cons]
      simp only [*, if_true]
      exact (List.dropWhile_sublist _).length_le
    have hr' : List.dropWhile TokenSet.isDigitC (c :: cs) = '.' :: d :: r₂ := hr
    rw [hr'] at h1
    have h2 : ((d :: r₂).dropWhile TokenSet.isDigitC).length ≤ (d :: r₂).length :=
      (List.dropWhile_sublist _).length_le
    simp at h1
    simp only [List.length_cons] at h2 ⊢
    omega
  · have h1 : ((c :: cs).dropWhile TokenSet.isDigitC).length ≤ cs.length := by
      rw [List.dropWhile_cons]
      simp only [*, if_true]
      exact (List.dropWhile_sublist _).length_le
    have hr' : List.dropWhile TokenSet.isDigitC (c :: cs) = '.' :: d :: r₂ := hr
    rw [hr'] at h1
    simp only [List.length_cons] at h1 ⊢
    omega
  · have h1 : ((c :: cs).dropWhile TokenSet.isDigitC).length ≤ cs.length := by
      rw [List.dropWhile_cons]
      simp only [*, if_true]
      exact (List.dropWhile_sublist _).length_le
    rw [hr] at h1
    simp only [List.length_cons]
    omega
  · simp only [List.length_cons]
    omega

/-- Digit run → natural number. -/
def parseDigits (ds : List Char) : ℕ :=
  ds.foldl (fun n c => 10 * n + (c.toNat - 48)) 0

/-- `float(num)` for a matched `\d+(?:\.\d+)?` literal (exact rational). -/
def parseNum (cs : List Char) : ℚ :=
  let ip := cs.takeWhile TokenSet.isDigitC
  match cs.dropWhile TokenSet.isDigitC with
  | '.' :: fs =>
    let fp := fs.takeWhile TokenSet.isDigitC
    (parseDigits ip : ℚ) + (parseDigits fp : ℚ) / (10 : ℚ) ^ fp.length
  | _ => (parseDigits ip : ℚ)

/-- `'{:.2f}'.format(x)` for a nonnegative value (two decimals, round half to
even on the exact value). -/
def fmt2f (q : ℚ) : List Char :=
  let n := (roundHalfEven (100 * q)).toNat
  (Nat.toDigits 10 (n / 100)) ++
    '.' :: (if n % 100 < 10 then '0' :: Nat.toDigits 10 (n % 100)
            else Nat.toDigits 10 (n % 100))

/-- Number boundary class `[^\.\d]` (complemented). -/
def numBoundary (c? : Option Char) : Bool :=
  match c? with
  | none => true
  | some a => !(a = '.' || TokenSet.isDigitC a)

/-- `re.sub(r'(^|[^\.\d]){num}([^\.\d]|$)', r'\g<1>{repl}\g<2>', name,
count=1)`: replace the first occurrence of `num` delimited by non-number
characters, keeping the delimiters. -/
def replNumAux (num repl : List Char) : Option Char → List Char → List Char
  | _, [] => []
  | prev, c :: cs =>
    if num.isPrefixOf (c :: cs) ∧ num ≠ [] ∧ numBoundary prev = true ∧
        numBoundary ((c :: cs).drop num.length).head? = true then
      repl ++ (c :: cs).drop num.length
    else c :: replNumAux num repl (some c) cs

/-- The number-formatting loop of `clean_basic`. -/
def formatNumbers (text : List Char) : List Char :=
  (findNumbers text).foldl
    (fun t num => replNumAux num (fmt2f (parseNum num)) none t) text

/-- `re.sub(r'\.0{1,}', '', name)`. -/
def dotZeros : List Char → List Char
  | [] => []
  | c :: rest =>
    if c = '.' ∧ rest.takeWhile (fun x => x = '0') ≠ [] then
      dotZeros (rest.dropWhile (fun x => x = '0'))
    else c :: dotZeros rest
  termination_by l => l.length
  decreasing_by
  all_goals simp only [List.length_cons]
  all_goals (try omega)
  all_goals
    (have h1 : (List.dropWhile (fun x => x = '0') cs).length ≤ cs.length :=
      (List.dropWhile_sublist _).length_le
     omega)

/-- The first unit symbol (in table order) matching case-insensitively at the
head of the text with a `(?!\w)` boundary after it. -/
def unitAt (text : List Char) : Option (List Char) :=
  (UnitConvertor.unitKeys.find? (fun k =>
    ProductCleaner.ciMatchPre k.toList text &&
      (match (text.drop k.length).head? with
       | some a => !isWordChar a
       | none => true))).map (fun k => k.toList)

/-- The unit-joining substitution
`re.sub(r'\s+(?=(unit alternation)(?!\w))', lambda m: m.group(1).lower()+" ")`:
a whitespace run immediately followed by a unit symbol is replaced by the
lowercased unit plus one space (the unit text itself is left in place and
re-scanned). -/
def unitJoinScan : List Char → List Char
  | [] => []
  | c :: cs =>
    if TokenSet.isSpaceC c then
      match unitAt ((c :: cs).dropWhile TokenSet.isSpaceC) with
      | some k => k ++ ' ' :: unitJoinScan ((c :: cs).dropWhile TokenSet.isSpaceC)
      | none =>
        (c :: cs).takeWhile TokenSet.isSpaceC
          ++ unitJoinScan ((c :: cs).dropWhile TokenSet.isSpaceC)
    else c :: unitJoinScan cs
  termination_by l => l.length
  decreasing_by
  all_goals simp only [List.length_cons]
  all_goals (try omega)
  all_goals
    (have h1 : (List.dropWhile TokenSet.isSpaceC (c :: cs)).length ≤ cs.length := by
      rw [List.dropWhile_cons, if_pos (by assumption : TokenSet.isSpaceC c = true)]
      exact (List.dropWhile_sublist _).length_le
     omega)

/-- `re.sub(r'rrp\s*(\d+(?:\.\d+)?)', ' ', name, flags=re.IGNORECASE)`. -/
def rrpScan : List Char → List Char
  | [] => []
  | c :: cs =>
    if ProductCleaner.ciMatchPre ['r', 'r', 'p'] (c :: cs) then
      let r₂ := ((c :: cs).drop 3).dropWhile TokenSet.isSpaceC
      if (r₂.takeWhile TokenSet.isDigitC) ≠ [] then
        match hr : r₂.dropWhile TokenSet.isDigitC with
        | '.' :: d :: r₄ =>
          if TokenSet.isDigitC d then
            ' ' :: rrpScan ((d :: r₄).dropWhile TokenSet.isDigitC)
          else ' ' :: rrpScan ('.' :: d :: r₄)
        | r₃ => ' ' :: rrpScan r₃
      else c :: rrpScan cs
    else c :: rrpScan cs
  termination_by l => l.length
  decreasing_by
  all_goals simp only [List.length_cons]
  all_goals (try omega)
  all_goals
    (have h0 : (List.drop 3 (c :: cs)).length = cs.length + 1 - 3 := by
      simp [List.length_drop]
     have h1 : r₂.length ≤ (List.drop 3 (c :: cs)).length :=
      (List.dropWhile_sublist _).length_le
     have h2 : (List.dropWhile TokenSet.isDigitC r₂).length ≤ r₂.length :=
      (List.dropWhile_sublist _).length_le
     try (have hlen : (List.dropWhile TokenSet.isDigitC r₂).length
            = ('.' :: d :: r₄).length := by rw [hr]
          have h4 : (d :: r₄).length = r₄.length + 1 := rfl
          have h5 : ('.' :: d :: r₄).length = r₄.length + 2 := rfl
          have h3 : (List.dropWhile TokenSet.isDigitC (d :: r₄)).length
            ≤ (d :: r₄).length := (List.dropWhile_sublist _).length_le)
     try (have hlen2 : (List.dropWhile TokenSet.isDigitC r₂).length = r₃.length := by
            rw [hr])
     omega)

/-- `re.sub('&', ' and ', name)`. -/
def ampAnd (cs : List Char) : List Char :=
  (cs.map (fun c => if c = '&' then (" and ").toList else [c])).flatten

/-- `re.sub(r'\s+', ' ', name)`. -/
def wsCollapse : List Char → List Char
  | [] => []
  | c :: cs =>
    if TokenSet.isSpaceC c then ' ' :: wsCollapse (cs.dropWhile TokenSet.isSpaceC)
    else c :: wsCollapse cs
  termination_by l => l.length
  decreasing_by
  · have : (cs.dropWhile TokenSet.isSpaceC).length ≤ cs.length :=
      (List.dropWhile_sublist _).length_le
    simp only [List.length_cons]
    omega
  · simp only [List.length_cons]
    omega

/-- The full text pipeline of `GoodCleaner.clean_basic` applied to the
variant text, in source order. -/
def clean_basic_pipeline (variant : String) : String :=
  let n₀ := stripL variant.toList
  let n₁ := hyphens n₀
  let n₂ := removalScan n₁
  let n₃ := stripL (charFilter n₂)
  let n₄ := dotsEnds n₃
  let n₅ := dotSpace n₄
  let n₆ := formatNumbers n₅
  let n₇ := dotZeros n₆
  let n₈ := unitJoinScan n₇
  let n₉ := rrpScan n₈
  let n₁₀ := ampAnd n₉
  let n₁₁ := stripL (wsCollapse n₁₀)
  ⟨removalScan n₁₁⟩
end GoodCleaner

namespace ProductCleaner

/-- A full token of a variant-name `TokenSet` as consumed by the cleaner
loops: the verbatim raw text (trailing whitespace included), the
stripped/lowercased key, the numeric value for numeric tokens, and whether
the raw text carries a fractional part (decides whether `int(token_raw)`
raises). -/
structure RTok where
  raw : String
  key : String
  val? : Option ℚ := none
  isFrac : Bool := false
  deriving Repr, DecidableEq

/-- `token_normalized.isdigit()` for a full token. -/
def RTok.intLike (t : RTok) : Bool :=
  match t.val? with
  | some v => v.den = 1
  | none => false

/-- Canonical decimal text of a numeric token: leading zeros of the integer
part and trailing zeros of the fraction part removed, a bare fraction kept
as `0.x`, an integral value left without a point.  This is
`str(float(token)).rstrip("0").rstrip(".")` for tokens within the range
where the float repr reproduces the decimal exactly. -/
def normNum (cs : List Char) : List Char :=
  let intPart := cs.takeWhile (fun c => c ≠ '.')
  let fracPart := (cs.dropWhile (fun c => c ≠ '.')).drop 1
  let intPart' := if intPart.dropWhile (fun c => c = '0') = [] then ['0']
    else intPart.dropWhile (fun c => c = '0')
  let fracPart' := (fracPart.reverse.dropWhile (fun c => c = '0')).reverse
  if fracPart' = [] then intPart' else intPart' ++ '.' :: fracPart'

/-- Build the full token from a raw tokenizer token (`key` is the
normalized form: canonical decimal for a numeric token, stripped lowercase
text otherwise). -/
def RTok.ofRaw (cs : List Char) : RTok :=
  let stripped := GoodCleaner.stripL cs
  match cs with
  | c :: _ =>
    if TokenSet.isDigitC c then
      { raw := ⟨cs⟩, key := ⟨normNum stripped⟩,
        val? := some (GoodCleaner.parseNum stripped),
        isFrac := stripped.contains '.' }
    else { raw := ⟨cs⟩, key := ⟨stripped.map Char.toLower⟩ }
  | [] => { raw := "", key := "" }

/-- The `TokenSet` of a variant string, as full tokens. -/
def tokens (s : String) : List RTok :=
  (TokenSet.tokenize_variant_name s.toList).map RTok.ofRaw

/-- `f"{x}"` of a possibly absent raw token: Python renders `None` as the
text "None" inside an f-string. -/
def rawOf (o : Option RTok) : String :=
  match o with
  | some t => t.raw
  | none => "None"

/-- Boolean key test on a possibly absent token (`None` fails). -/
def keyEq (o : Option RTok) (s : String) : Bool :=
  match o with
  | some t => t.key = s
  | none => false

/-- "`normalized in get_units()`" on a possibly absent token. -/
def keyInUnits (o : Option RTok) : Bool :=
  match o with
  | some t => t.key ∈ UnitConvertor.unitKeys
  | none => false

/-- "`normalized.isdigit()`" on a possibly absent token. -/
def optIntLike (o : Option RTok) : Bool :=
  match o with
  | some t => t.intLike
  | none => false

/-- One iteration of the `clean_pack` loop at the token with left context
`left` (reversed prefix).  Returns the updated `(variant, divisor)`; `none`
models the `ValueError` of `int(token_raw)` on a fractional raw text. -/
def clean_pack_step (left : List RTok) (cur : RTok) (rest : List RTok)
    (variant : String) (divisor : ℚ) : Option (String × ℚ) :=
  if cur.intLike then
    let before2 := (left.drop 1).head?
    let before := left.head?
    let after := rest.head?
    let after2 := (rest.drop 1).head?
    let st₁ : Option (String × ℚ) :=
      if keyEq after "pack" then
        if keyEq after2 "x" then
          some (GoodCleaner.ciReplaceFirst variant (rawOf after) " ", divisor)
        else
          if cur.isFrac then none
          else some (GoodCleaner.ciReplaceFirst variant (cur.raw ++ rawOf after) " ",
            cur.val?.getD 0)
      else some (variant, divisor)
    match st₁ with
    | none => none
    | some (variant₁, divisor₁) =>
      match before2, before with
      | some b2, some b =>
        if b2.key = "pack" ∧ b.key = "of" then
          if cur.isFrac then none
          else some
            (GoodCleaner.ciReplaceFirst variant₁ (b2.raw ++ b.key ++ cur.raw) " ",
              cur.val?.getD 0)
        else some (variant₁, divisor₁)
      | _, _ => some (variant₁, divisor₁)
  else some (variant, divisor)

def clean_pack_loop : List RTok → List RTok → String → ℚ → Option (String × ℚ)
  | _, [], variant, divisor => some (variant, divisor)
  | left, cur :: rest, variant, divisor =>
    match clean_pack_step left cur rest variant divisor with
    | none => none
    | some (variant', divisor') => clean_pack_loop (cur :: left) rest variant' divisor'

/-- `ProductCleaner.clean_pack`: remove "pack" patterns from the variant and
return the inferred count (the final `.strip()` included). -/
def clean_pack (toks : List RTok) (variant : String) : Option (String × ℚ) :=
  match clean_pack_loop [] toks variant 1 with
  | none => none
  | some (v, d) => some (GoodCleaner.strip v, d)

/-- One iteration of the `clean_x` loop (state: variant text, divisor, and
the `changed` latch). -/
def clean_x_step (left : List RTok) (cur : RTok) (rest : List RTok) :
    String × ℚ × Bool → String × ℚ × Bool := fun (variant, divisor, changed) =>
  if cur.intLike then
    let a₁ := rest.head?
    let a₂ := (rest.drop 1).head?
    let a₃ := (rest.drop 2).head?
    let a₄ := (rest.drop 3).head?
    let a₅ := (rest.drop 4).head?
    let a₆ := (rest.drop 5).head?
    let before := left.head?
    let st₁ : String × ℚ × Bool :=
      if keyEq a₁ "x" ∨ keyEq a₁ "*" then
        let variant₁ :=
          if a₃.isSome ∧ keyEq a₄ "=" ∧ keyInUnits a₃ then
            if a₅.isSome ∧ a₆.isSome ∧ keyInUnits a₆ then
              GoodCleaner.ciReplaceFirst variant
                (cur.raw ++ rawOf a₁ ++ rawOf a₂ ++ rawOf a₃ ++ rawOf a₄
                  ++ rawOf a₅ ++ rawOf a₆)
                (" " ++ rawOf a₂ ++ rawOf a₃ ++ " ")
            else
              GoodCleaner.ciReplaceFirst variant
                (cur.raw ++ rawOf a₁ ++ rawOf a₂ ++ rawOf a₃ ++ rawOf a₄ ++ rawOf a₅)
                (" " ++ rawOf a₂ ++ rawOf a₃ ++ " ")
          else variant
        let variant₂ :=
          if keyEq a₃ "=" then
            if a₅.isSome ∧ keyInUnits a₅ then
              GoodCleaner.ciReplaceFirst variant₁
                (cur.raw ++ rawOf a₁ ++ rawOf a₂ ++ rawOf a₃ ++ rawOf a₄ ++ rawOf a₅)
                (" " ++ rawOf a₂ ++ " ")
            else
              GoodCleaner.ciReplaceFirst variant₁
                (cur.raw ++ rawOf a₁ ++ rawOf a₂ ++ rawOf a₃ ++ rawOf a₄)
                (" " ++ rawOf a₂)
          else if optIntLike a₂ then
            if a₃.isSome ∧ keyInUnits a₃ then
              GoodCleaner.ciReplaceFirst variant₁
                (cur.raw ++ rawOf a₁ ++ rawOf a₂ ++ rawOf a₃) " "
            else
              GoodCleaner.ciReplaceFirst variant₁
                (cur.raw ++ rawOf a₁ ++ rawOf a₂) " "
          else
            GoodCleaner.ciReplaceFirst variant₁ (cur.raw ++ rawOf a₁) " "
        if ¬changed then (variant₂, cur.val?.getD 0, true)
        else (variant₂, divisor, changed)
      else (variant, divisor, changed)
    match st₁ with
    | (variant₃, divisor₃, changed₃) =>
      if keyEq before "x" ∨ keyEq before "*" then
        let variant₄ := GoodCleaner.ciReplaceFirst variant₃ (rawOf before ++ cur.raw) " "
        if ¬changed₃ then (variant₄, cur.val?.getD 0, true)
        else (variant₄, divisor₃, changed₃)
      else (variant₃, divisor₃, changed₃)
  else (variant, divisor, changed)

def clean_x_loop : List RTok → List RTok → String × ℚ × Bool → String × ℚ × Bool
  | _, [], st => st
  | left, cur :: rest, st => clean_x_loop (cur :: left) rest (clean_x_step left cur rest st)

/-- `ProductCleaner.clean_x`: remove "x" multiplier patterns and return the
inferred count (first numeric token adjacent to the x wins; final `.strip()`
included). -/
def clean_x (toks : List RTok) (variant : String) : String × ℚ :=
  match clean_x_loop [] toks (variant, 1, false) with
  | (v, d, _) => (GoodCleaner.strip v, d)

/-- `ProductCleaner.convert_product_units`: convert each number+unit token
pair to the item's unit at the running index (dropping pairs with no
corresponding item unit); `none` propagates the converter's `ValueError`. -/
def convert_product_units_loop (fstr : ℚ → String) (item_units : List String) :
    List RTok → ℕ → String → Option String
  | [], _, variant => some variant
  | cur :: rest, units_index, variant =>
    if cur.intLike then
      match rest.head? with
      | some a =>
        if a.key ∈ UnitConvertor.unitKeys then
          if item_units.length ≤ units_index then
            convert_product_units_loop fstr item_units rest units_index
              (ciReplaceAll variant (cur.raw ++ a.raw) " ")
          else
            match UnitConvertor.convert (cur.val?.getD 0) a.key
                (item_units.getD units_index "") with
            | .error _ => none
            | .ok converted =>
              let value := round2 converted
              convert_product_units_loop fstr item_units rest (units_index + 1)
                (ciReplaceAll variant (cur.raw ++ a.raw)
                  (fstr value ++ item_units.getD units_index ""))
        else convert_product_units_loop fstr item_units rest units_index variant
      | none => convert_product_units_loop fstr item_units rest units_index variant
    else convert_product_units_loop fstr item_units rest units_index variant

def convert_product_units (fstr : ℚ → String) (toks : List RTok)
    (item_units : List String) (variant : String) : Option String :=
  match convert_product_units_loop fstr item_units toks 0 variant with
  | none => none
  | some v => some (GoodCleaner.strip v)

end ProductCleaner
namespace ProductCleaner

/-- The mutable fields of a `Product` read or written by the cleaner. -/
structure CProduct where
  name : String := ""
  brand_name : String := ""
  variant_name : String := ""
  original_name : String := ""
  original_brand_name : String := ""
  original_variant_name : String := ""
  listing_price : ℚ := 0
  buy_price : ℚ := 0
  postage_price : ℚ := 0
  accuracy_score : ℚ := 100
  deriving Repr, DecidableEq

/-- The fields of the reference `Item` read by the cleaner. -/
structure CItem where
  brand_name : String := ""
  measurements : List (ℚ × String) := []
  deriving Repr, DecidableEq

/-- `ProductCleaner.get_measurements` on a list of `[value, unit]` pairs:
returns `(item_units, item_values)`. -/
def get_measurements (item : CItem) : List String × List ℚ :=
  (item.measurements.map (fun m => m.2), item.measurements.map (fun m => m.1))

/-- `ProductCleaner.set_name`: seed a placeholder variant from the name, snap
a placeholder brand to the item's brand when it occurs in the product name
(removing it, word-bounded, from the name to form the variant), recompose
`name`, and snapshot `original_brand_name`/`original_variant_name`. -/
def set_name (product : CProduct) (item : CItem) : CProduct :=
  let variant :=
    if product.variant_name = "" ∨ product.variant_name = "variant" then product.name
    else product.variant_name
  let bv : String × String :=
    if product.brand_name = "" ∨ product.brand_name = "brand" then
      if item.brand_name ≠ "" then
        if GoodCleaner.containsCI product.name item.brand_name then
          (item.brand_name,
            GoodCleaner.strip (GoodCleaner.wbRemove product.name item.brand_name))
        else ("", variant)
      else ("", variant)
    else (product.brand_name, variant)
  { product with
    brand_name := bv.1,
    variant_name := bv.2,
    name := GoodCleaner.strip (bv.1 ++ " " ++ bv.2),
    original_brand_name := bv.1,
    original_variant_name := bv.2 }

/-- `ProductCleaner.adjust_quantities`: run `clean_pack` then `clean_x` on
the token set of the current variant, take the larger inferred count, and
for a count above 1 rescale the listing price by `divisor ** 0.96` (postage
or a 2.70 default deducted first), recompute the buy price, and degrade the
accuracy by `1 - 0.03 * divisor ** 0.6`. -/
def adjust_quantities (fpow : ℚ → ℚ → ℚ) (product : CProduct) : Option CProduct :=
  let toks := tokens product.variant_name
  match clean_pack toks product.variant_name with
  | none => none
  | some pr =>
    let xr := clean_x toks pr.1
    let divisor := max pr.2 xr.2
    let product := { product with variant_name := GoodCleaner.strip xr.1 }
    if 1 < divisor then
      let listing :=
        if 0 < product.postage_price then
          round2 ((product.listing_price - product.postage_price) / fpow divisor (96/100))
        else round2 ((product.listing_price - 27/10) / fpow divisor (96/100))
      some { product with
        listing_price := listing,
        buy_price := round2 (listing - product.postage_price),
        accuracy_score :=
          round2 (product.accuracy_score * (1 - 3/100 * fpow divisor (6/10))) }
    else some product

/-- `ProductCleaner.adjust_measurements`: one token set is computed from the
current variant and fed to `convert_product_units` and then `convert_values`
(whose `Tok.key` is the stripped, lowercased raw text). -/
def adjust_measurements (fpow : ℚ → ℚ → ℚ) (fstr : ℚ → String) (product : CProduct)
    (item_units : List String) (item_values : List ℚ) : Option CProduct :=
  let toks := tokens product.variant_name
  match convert_product_units fstr toks item_units product.variant_name with
  | none => none
  | some v₁ =>
    match convert_values fpow fstr
        (toks.map (fun t => ⟨GoodCleaner.lowerS (GoodCleaner.strip t.raw), t.val?⟩))
        { variant_name := v₁, listing_price := product.listing_price,
          accuracy_score := product.accuracy_score,
          item_units := item_units, item_values := item_values } with
    | none => none
    | some s =>
      some { product with
        variant_name := s.variant_name,
        listing_price := s.listing_price,
        accuracy_score := s.accuracy_score }

/-- `GoodCleaner.clean_basic` on the record: snapshot `original_name`
(brand + pre-pipeline variant), `original_variant_name` and
`original_brand_name` (stripped pre-pipeline fields), run the text pipeline
on the variant, and recompose `name`. -/
def clean_basic (good : CProduct) : CProduct :=
  let variant := GoodCleaner.clean_basic_pipeline good.variant_name
  { good with
    original_name := GoodCleaner.strip (good.brand_name ++ " " ++ good.variant_name),
    original_variant_name := GoodCleaner.strip good.variant_name,
    original_brand_name := GoodCleaner.strip good.brand_name,
    variant_name := variant,
    name := GoodCleaner.strip (good.brand_name ++ " " ++ variant) }

/-- `ProductCleaner.clean`: measurements, `set_name`, `adjust_quantities`,
`adjust_measurements`, then the basic text pipeline.  `none` propagates any
uncaught exception of the pass. -/
def clean (fpow : ℚ → ℚ → ℚ) (fstr : ℚ → String) (item : CItem)
    (product : CProduct) : Option CProduct :=
  let m := get_measurements item
  let p₁ := set_name product item
  match adjust_quantities fpow p₁ with
  | none => none
  | some p₂ =>
    match adjust_measurements fpow fstr p₂ m.1 m.2 with
    | none => none
    | some p₃ => some (clean_basic p₃)

end ProductCleaner
namespace ProductCleaner

theorem intLike_of_none {t : RTok} (h : t.val? = none) : t.intLike = false := by
  simp [RTok.intLike, h]

/-- `clean_pack` leaves its state untouched on a stream without numeric
tokens (no branch of the loop fires). -/
theorem clean_pack_loop_keep (toks : List RTok)
    (h : ∀ t ∈ toks, t.intLike = false) :
    ∀ (left : List RTok) (v : String) (d : ℚ),
      clean_pack_loop left toks v d = some (v, d) := by
  induction toks with
  | nil => intro left v d; rfl
  | cons a l ih =>
    intro left v d
    have ha : a.intLike = false := h a (List.mem_cons_self a l)
    have hstep : clean_pack_step left a l v d = some (v, d) := by
      simp [clean_pack_step, ha]
    rw [clean_pack_loop, hstep]
    exact ih (fun t ht => h t (List.mem_cons_of_mem _ ht)) _ _ _

theorem clean_pack_keep (toks : List RTok) (h : ∀ t ∈ toks, t.intLike = false)
    (v : String) : clean_pack toks v = some (GoodCleaner.strip v, 1) := by
  rw [clean_pack, clean_pack_loop_keep toks h]

/-- `clean_x` likewise fires on no branch without numeric tokens. -/
theorem clean_x_loop_keep (toks : List RTok)
    (h : ∀ t ∈ toks, t.intLike = false) :
    ∀ (left : List RTok) (st : String × ℚ × Bool), clean_x_loop left toks st = st := by
  induction toks with
  | nil => intro left st; rfl
  | cons a l ih =>
    intro left st
    have ha : a.intLike = false := h a (List.mem_cons_self a l)
    have hstep : clean_x_step left a l st = st := by
      obtain ⟨v, d, c⟩ := st
      simp [clean_x_step, ha]
    rw [clean_x_loop, hstep]
    exact ih (fun t ht => h t (List.mem_cons_of_mem _ ht)) _ _

theorem clean_x_keep (toks : List RTok) (h : ∀ t ∈ toks, t.intLike = false)
    (v : String) : clean_x toks v = (GoodCleaner.strip v, 1) := by
  rw [clean_x, clean_x_loop_keep toks h]

/-- `convert_product_units` is the identity on the variant without numeric
tokens. -/
theorem convert_product_units_loop_keep (fstr : ℚ → String) (iu : List String)
    (toks : List RTok) (h : ∀ t ∈ toks, t.intLike = false) :
    ∀ (ui : ℕ) (v : String),
      convert_product_units_loop fstr iu toks ui v = some v := by
  induction toks with
  | nil => intro ui v; rfl
  | cons a l ih =>
    intro ui v
    have ha : a.intLike = false := h a (List.mem_cons_self a l)
    rw [convert_product_units_loop, if_neg (by simp [ha])]
    exact ih (fun t ht => h t (List.mem_cons_of_mem _ ht)) _ _

theorem convert_product_units_keep (fstr : ℚ → String) (iu : List String)
    (toks : List RTok) (h : ∀ t ∈ toks, t.intLike = false) (v : String) :
    convert_product_units fstr toks iu v = some (GoodCleaner.strip v) := by
  rw [convert_product_units, convert_product_units_loop_keep fstr iu toks h]

/-- `convert_values` is the identity on its state without numeric tokens. -/
theorem convert_values_keep (fpow : ℚ → ℚ → ℚ) (fstr : ℚ → String) :
    ∀ (toks : List Tok), (∀ t ∈ toks, t.isIntTok = false) →
      ∀ (s : CVState), convert_values fpow fstr toks s = some s := by
  intro toks
  induction toks with
  | nil => intro _ s; rfl
  | cons a l ih =>
    intro h s
    match l with
    | [] => rfl
    | u :: rest =>
      have ha : a.isIntTok = false := h a (List.mem_cons_self a (u :: rest))
      rw [convert_values, if_neg (by simp [ha])]
      exact ih (fun t ht => h t (List.mem_cons_of_mem _ ht)) s

end ProductCleaner
namespace ProductCleaner

/-- On a candidate whose brand and variant are set (not the `""`/`"brand"`/
`"variant"` placeholders), `set_name` only recomposes the name and the
original-name snapshots. -/
theorem set_name_stable (item : CItem) (p : CProduct)
    (hb1 : p.brand_name ≠ "") (hb2 : p.brand_name ≠ "brand")
    (hv1 : p.variant_name ≠ "") (hv2 : p.variant_name ≠ "variant") :
    set_name p item = { p with
      name := GoodCleaner.strip (p.brand_name ++ " " ++ p.variant_name),
      original_brand_name := p.brand_name,
      original_variant_name := p.variant_name } := by
  simp [set_name, hb1, hb2, hv1, hv2]

/-- Without numeric tokens in the variant (already stripped),
`adjust_quantities` is the identity. -/
theorem adjust_quantities_stable (fpow : ℚ → ℚ → ℚ) (p : CProduct)
    (hnum : ∀ t ∈ tokens p.variant_name, t.intLike = false)
    (hstrip : GoodCleaner.strip p.variant_name = p.variant_name) :
    adjust_quantities fpow p = some p := by
  have h1 : clean_pack (tokens p.variant_name) p.variant_name
      = some (p.variant_name, 1) := by
    rw [clean_pack_keep _ hnum, hstrip]
  have h2 : clean_x (tokens p.variant_name) p.variant_name
      = (p.variant_name, 1) := by
    rw [clean_x_keep _ hnum, hstrip]
  simp only [adjust_quantities, h1, h2]
  norm_num
  rw [hstrip]

/-- Without numeric tokens in the variant (already stripped),
`adjust_measurements` is the identity. -/
theorem adjust_measurements_stable (fpow : ℚ → ℚ → ℚ) (fstr : ℚ → String)
    (p : CProduct) (iu : List String) (iv : List ℚ)
    (hnum : ∀ t ∈ tokens p.variant_name, t.val? = none)
    (hstrip : GoodCleaner.strip p.variant_name = p.variant_name) :
    adjust_measurements fpow fstr p iu iv = some p := by
  have hnum' : ∀ t ∈ tokens p.variant_name, t.intLike = false :=
    fun t ht => intLike_of_none (hnum t ht)
  have h1 : convert_product_units fstr (tokens p.variant_name) iu p.variant_name
      = some p.variant_name := by
    rw [convert_product_units_keep fstr iu _ hnum', hstrip]
  have h2 : ∀ s : CVState,
      convert_values fpow fstr
        ((tokens p.variant_name).map
          (fun t => ⟨GoodCleaner.lowerS (GoodCleaner.strip t.raw), t.val?⟩)) s
      = some s := by
    refine convert_values_keep fpow fstr _ ?_
    intro t ht
    rcases List.mem_map.mp ht with ⟨u, hu, rfl⟩
    simp [Tok.isIntTok, hnum u hu]
  simp only [adjust_measurements, h1, h2]

end ProductCleaner
/-- **C9** (amended).  The normalizer is *not* idempotent on the preserved
`original_*` fields, but it is on everything else: for a candidate whose
brand and variant are set (non-placeholder), whose name is the recomposed
"brand variant", whose variant is stripped, contains no numeric tokens
(hence no pack/multiplier or number–unit pattern can fire), and is a fixed
point of the basic text pipeline, a further `clean` pass leaves the name,
brand, variant, prices and confidence unchanged — while overwriting
`original_name`, `original_brand_name` and `original_variant_name` with
values derived from the current (already cleaned) state. -/
theorem clean_stable_fields (fpow : ℚ → ℚ → ℚ) (fstr : ℚ → String)
    (item : ProductCleaner.CItem) (p : ProductCleaner.CProduct)
    (hb1 : p.brand_name ≠ "") (hb2 : p.brand_name ≠ "brand")
    (hv1 : p.variant_name ≠ "") (hv2 : p.variant_name ≠ "variant")
    (hname : p.name = GoodCleaner.strip (p.brand_name ++ " " ++ p.variant_name))
    (hnum : ∀ t ∈ ProductCleaner.tokens p.variant_name, t.val? = none)
    (hstrip : GoodCleaner.strip p.variant_name = p.variant_name)
    (hpipe : GoodCleaner.clean_basic_pipeline p.variant_name = p.variant_name) :
    ProductCleaner.clean fpow fstr item p = some { p with
      original_name := p.name,
      original_brand_name := GoodCleaner.strip p.brand_name,
      original_variant_name := p.variant_name } := by
  have hnum' : ∀ t ∈ ProductCleaner.tokens p.variant_name, t.intLike = false :=
    fun t ht => ProductCleaner.intLike_of_none (hnum t ht)
  have haq : ProductCleaner.adjust_quantities fpow { p with
      name := GoodCleaner.strip (p.brand_name ++ " " ++ p.variant_name),
      original_brand_name := p.brand_name,
      original_variant_name := p.variant_name } = some { p with
      name := GoodCleaner.strip (p.brand_name ++ " " ++ p.variant_name),
      original_brand_name := p.brand_name,
      original_variant_name := p.variant_name } :=
    ProductCleaner.adjust_quantities_stable fpow _ hnum' hstrip
  have ham : ProductCleaner.adjust_measurements fpow fstr { p with
      name := GoodCleaner.strip (p.brand_name ++ " " ++ p.variant_name),
      original_brand_name := p.brand_name,
      original_variant_name := p.variant_name }
      (ProductCleaner.get_measurements item).1
      (ProductCleaner.get_measurements item).2 = some { p with
      name := GoodCleaner.strip (p.brand_name ++ " " ++ p.variant_name),
      original_brand_name := p.brand_name,
      original_variant_name := p.variant_name } :=
    ProductCleaner.adjust_measurements_stable fpow fstr _ _ _ hnum hstrip
  rw [ProductCleaner.clean,
    ProductCleaner.set_name_stable item p hb1 hb2 hv1 hv2]
  simp only [haq, ham]
  simp only [ProductCleaner.clean_basic, hpipe, hstrip, ← hname]
def c9pow : ℚ → ℚ → ℚ := fun _ _ => 1

def c9str : ℚ → String := fun _ => ""

def c9item : ProductCleaner.CItem := { brand_name := "B", measurements := [] }

def c9stable : ProductCleaner.CProduct :=
  { name := "B Primer", brand_name := "B", variant_name := "Primer",
    listing_price := 10, buy_price := 8, postage_price := 2, accuracy_score := 90 }

set_option maxHeartbeats 2000000 in
theorem clean_stable_fields_witness :
    ProductCleaner.clean c9pow c9str c9item c9stable = some { c9stable with
      original_name := c9stable.name,
      original_brand_name := GoodCleaner.strip c9stable.brand_name,
      original_variant_name := c9stable.variant_name } :=
  clean_stable_fields c9pow c9str c9item c9stable (by decide) (by decide) (by decide)
    (by decide)
    (by simp [c9stable, GoodCleaner.strip, GoodCleaner.stripL, TokenSet.isSpaceC])
    (by simp [c9stable, ProductCleaner.tokens, TokenSet.tokenize_variant_name,
      TokenSet.isDigitC, TokenSet.isAlphaC, TokenSet.isSymC, TokenSet.isSpaceC,
      TokenSet.isWordC, ProductCleaner.RTok.ofRaw, GoodCleaner.stripL])
    (by simp [c9stable, GoodCleaner.strip, GoodCleaner.stripL, TokenSet.isSpaceC])
    (by simp [c9stable, GoodCleaner.clean_basic_pipeline, GoodCleaner.strip,
      GoodCleaner.stripL, GoodCleaner.hyphens, GoodCleaner.removalScan,
      GoodCleaner.tryAlts, GoodCleaner.matchPat, GoodCleaner.removal_terms,
      GoodCleaner.w, GoodCleaner.ph, GoodCleaner.charFilter, GoodCleaner.keptChar,
      GoodCleaner.dotsEnds, GoodCleaner.dotSpace, GoodCleaner.findNumbers,
      GoodCleaner.formatNumbers, GoodCleaner.dotZeros, GoodCleaner.unitJoinScan,
      GoodCleaner.unitAt, GoodCleaner.rrpScan, GoodCleaner.ampAnd,
      GoodCleaner.wsCollapse, TokenSet.isSpaceC, TokenSet.isDigitC,
      ProductCleaner.ciMatchPre, UnitConvertor.unitKeys, UnitConvertor.get_units,
      GoodCleaner.isWordChar, String.toList])
def c9cand : ProductCleaner.CProduct :=
  { name := "B Sealed Primer", brand_name := "B", variant_name := "Sealed Primer",
    listing_price := 10, buy_price := 8, postage_price := 2, accuracy_score := 90 }

def c9out₁ : ProductCleaner.CProduct :=
  { name := "B Primer", brand_name := "B", variant_name := "Primer",
    original_name := "B Sealed Primer", original_brand_name := "B",
    original_variant_name := "Sealed Primer",
    listing_price := 10, buy_price := 8, postage_price := 2, accuracy_score := 90 }

def c9out₂ : ProductCleaner.CProduct :=
  { c9out₁ with original_name := "B Primer", original_variant_name := "Primer" }

set_option maxHeartbeats 4000000 in
/-- **C9** (counterexample).  Cleaning the candidate "B / Sealed Primer"
normalizes its variant to "Primer" while preserving "Sealed Primer" in
`original_variant_name`; a second `clean` pass leaves name, brand, variant,
prices and confidence untouched but overwrites `original_name` and
`original_variant_name` with the already-cleaned values, so the second run
is not a no-op on every field of the candidate. -/
theorem clean_overwrites_originals_on_second_pass :
    ProductCleaner.clean c9pow c9str c9item c9cand = some c9out₁ ∧
    ProductCleaner.clean c9pow c9str c9item c9out₁ = some c9out₂ ∧
    c9out₂.name = c9out₁.name ∧ c9out₂.variant_name = c9out₁.variant_name ∧
    c9out₂.listing_price = c9out₁.listing_price ∧
    c9out₂.accuracy_score = c9out₁.accuracy_score ∧
    c9out₂.original_variant_name ≠ c9out₁.original_variant_name ∧
    c9out₂.original_name ≠ c9out₁.original_name := by
  refine ⟨?_, ?_, rfl, rfl, rfl, rfl, by decide, by decide⟩ <;>
  simp [c9pow, c9str, c9item, c9cand, c9out₁, c9out₂,
    ProductCleaner.clean, ProductCleaner.get_measurements, ProductCleaner.set_name,
    ProductCleaner.adjust_quantities, ProductCleaner.adjust_measurements,
    ProductCleaner.clean_basic, ProductCleaner.tokens, ProductCleaner.RTok.ofRaw,
    ProductCleaner.RTok.intLike, ProductCleaner.normNum, ProductCleaner.clean_pack,
    ProductCleaner.clean_pack_loop, ProductCleaner.clean_pack_step,
    ProductCleaner.clean_x, ProductCleaner.clean_x_loop, ProductCleaner.clean_x_step,
    ProductCleaner.keyEq, ProductCleaner.keyInUnits, ProductCleaner.optIntLike,
    ProductCleaner.rawOf, ProductCleaner.convert_product_units,
    ProductCleaner.convert_product_units_loop, ProductCleaner.convert_values,
    ProductCleaner.Tok.isIntTok, GoodCleaner.lowerS,
    TokenSet.tokenize_variant_name, TokenSet.isDigitC, TokenSet.isAlphaC,
    TokenSet.isSymC, TokenSet.isWordC,
    GoodCleaner.clean_basic_pipeline, GoodCleaner.strip, GoodCleaner.stripL,
    GoodCleaner.hyphens, GoodCleaner.removalScan, GoodCleaner.tryAlts,
    GoodCleaner.matchPat, GoodCleaner.removal_terms, GoodCleaner.w, GoodCleaner.ph,
    GoodCleaner.charFilter, GoodCleaner.keptChar, GoodCleaner.dotsEnds,
    GoodCleaner.dotSpace, GoodCleaner.findNumbers, GoodCleaner.formatNumbers,
    GoodCleaner.dotZeros, GoodCleaner.unitJoinScan, GoodCleaner.unitAt,
    GoodCleaner.rrpScan, GoodCleaner.ampAnd, GoodCleaner.wsCollapse,
    TokenSet.isSpaceC, ProductCleaner.ciMatchPre, UnitConvertor.unitKeys,
    UnitConvertor.get_units, GoodCleaner.isWordChar, String.toList]
